import Mathlib

/-!
# Verification of the `restk/openapi` builder and schema-registry layer

This file gives a shallow embedding, in Lean 4, of the Go package
`github.com/restk/openapi` (files `builder.go`, `types.go`) together with a
model of its schema reference registry, and proves (or refutes) the frozen
specification claims about it.

Conventions of the embedding:
* Go structs become Lean structures with the same field names (lower-cased).
* Go maps become association lists `List (String × α)`; a *nil* Go map is
  `Option (List (String × α))` with `none` for nil, because assigning into a
  nil map is a runtime panic while reading from one is not.
* Go panics become `Except String` errors carrying the panic message.
* Go pointer cells that are mutated through aliases (the OAuth flow builders)
  are modelled with a small explicit heap of cells addressed by `Nat`.
* The schema registry implementation (`NewMapRegistry` / `Registry.Schema`)
  is not part of the sources under verification; it is modelled from the
  specification's §4.3 algorithm, as marked on each such definition.
-/

namespace OpenAPIModel

/-! ## Association lists standing for Go maps (string keys) -/

/-- Lookup in a Go map modelled as an association list. -/
def lookupA {α : Type} : List (String × α) → String → Option α
  | [], _ => none
  | p :: ps, k => if p.1 = k then some p.2 else lookupA ps k

/-- Go map assignment `m[k] = v`: replaces the binding in place or appends. -/
def insertA {α : Type} : List (String × α) → String → α → List (String × α)
  | [], k, v => [(k, v)]
  | p :: ps, k, v => if p.1 = k then (k, v) :: ps else p :: insertA ps k v

/-- Reading a Go map (`m[k]`): reading from a nil map is legal and yields
the zero value, so `none` maps simply return `none`. -/
def mapGet {α : Type} (m : Option (List (String × α))) (k : String) : Option α :=
  match m with
  | none => none
  | some l => lookupA l k

/-- Writing a Go map (`m[k] = v`): assignment into a nil map is a runtime
panic (`assignment to entry in nil map`). -/
def mapSet {α : Type} (m : Option (List (String × α))) (k : String) (v : α) :
    Except String (Option (List (String × α))) :=
  match m with
  | none => .error "assignment to entry in nil map"
  | some l => .ok (some (insertA l k v))

/-! ## Type descriptors

A Go runtime type as far as the schema generator is concerned (spec §4.2):
primitives, pointers (optionality wrappers), slices, string-keyed maps, and
named struct types.  Named struct types are looked up in a `TypeEnv`, which
lets a struct field refer back to the struct itself (self-referential types).
-/

/-- Scalar schema kinds (spec §3, `SchemaNode.kind`). -/
inductive PrimKind : Type where
  | pInt
  | pString
  | pBool
  | pNumber
deriving DecidableEq

/-- A Go type descriptor. -/
inductive TypeExpr : Type where
  /-- a primitive type (int, string, bool, float) -/
  | prim (k : PrimKind)
  /-- pointer to a type: pure optionality signal (spec §4.2) -/
  | ptr (t : TypeExpr)
  /-- slice of a type -/
  | slice (t : TypeExpr)
  /-- map with string keys -/
  | smap (t : TypeExpr)
  /-- a declared (named) struct type, to be looked up in the `TypeEnv` -/
  | named (n : String)
deriving DecidableEq

/-- One struct field: serialization name and field type. -/
structure FieldDecl : Type where
  fname : String
  ftype : TypeExpr
deriving DecidableEq

/-- Declared struct types of the program, keyed by type name. -/
abbrev TypeEnv : Type := List (String × List FieldDecl)

/-- A field is optional iff it is pointer-wrapped (spec §4.2). -/
def isOpt : TypeExpr → Bool
  | .ptr _ => true
  | _ => false

/-! ## Schemas and the registry table -/

/-- A schema fragment.  `ref` is a named indirection token; the other
constructors are inline nodes (spec §3 `SchemaNode` / `SchemaRef`). -/
inductive Schema : Type where
  /-- a `$ref`-style reference token -/
  | ref (tok : String)
  /-- scalar schema -/
  | scalar (k : PrimKind)
  /-- array schema with an items schema -/
  | arr (items : Schema)
  /-- object schema: ordered properties and the required-names list -/
  | obj (props : List (String × Schema)) (required : List String)
  /-- object schema for a string-keyed map: additionalProperties -/
  | mapObj (addProps : Schema)

/-- One registry entry: assigned name, pending flag (`true` while the type is
being synthesized further up the call stack), and the finished node
(spec §3 `RegistryTable`). -/
structure RegEntry : Type where
  rname : String
  pend : Bool
  node : Option Schema

/-- The registry table, keyed by type identity.  Type identity is modelled as
the declared type name (distinct named types have distinct names in a
`TypeEnv`, so the spec's collision-disambiguation branch can never fire and is
omitted). -/
abbrev Table : Type := List (String × RegEntry)

/-- Reference token for an assigned name: path namespace ++ name. -/
def mkTok (ns nm : String) : String := ns ++ nm

/-- One step of field synthesis: resolve the field's type with the supplied
resolver, extend the ordered property list, and add the field to the required
list unless it is pointer-wrapped (spec §4.2, §4.4). -/
def fieldStep (rT : Table → TypeExpr → Option (Schema × Table))
    (acc : Option (List (String × Schema) × List String × Table)) (fd : FieldDecl) :
    Option (List (String × Schema) × List String × Table) :=
  match acc with
  | none => none
  | some (props, req, tb) =>
    match rT tb fd.ftype with
    | none => none
    | some (s, tb') =>
      some (props ++ [(fd.fname, s)],
            (if isOpt fd.ftype then req else req ++ [fd.fname]),
            tb')

/-- Modelled from the spec: the Reference Registry's
`Resolve(type) → SchemaRef` algorithm of §4.3 (the Go implementation
`NewMapRegistry` / `Registry.Schema` is not among the sources under
verification; only its callers in `builder.go` are).  Following §4.3:
if an entry exists (pending or complete) return its reference token at once;
otherwise assign the name derived from the declared type name, insert a
`pending` entry, synthesize the object schema field by field (each nested type
resolved through this same function), then store the entry as complete and
return the reference token.  Primitives resolve to inline scalar nodes with no
registry entry (spec §8 scenario); pointers resolve to the wrapped type's
schema; slices and string-keyed maps resolve to inline array /
additionalProperties nodes around the nested resolution.  `fuel` bounds the
recursion depth so the function is total; the cycle-breaking `pending` rule
makes a uniform small fuel sufficient, which is exactly the termination claim
of §4.3 step 2. -/
def resolveT (env : TypeEnv) (ns : String) : Nat → Table → TypeExpr → Option (Schema × Table)
  | 0, _, _ => none
  | _ + 1, tb, .prim k => some (.scalar k, tb)
  | fuel + 1, tb, .ptr t => resolveT env ns fuel tb t
  | fuel + 1, tb, .slice t =>
    match resolveT env ns fuel tb t with
    | none => none
    | some (s, tb') => some (.arr s, tb')
  | fuel + 1, tb, .smap t =>
    match resolveT env ns fuel tb t with
    | none => none
    | some (s, tb') => some (.mapObj s, tb')
  | fuel + 1, tb, .named n =>
    match lookupA tb n with
    | some e => some (.ref (mkTok ns e.rname), tb)
    | none =>
      match lookupA env n with
      | none => none
      | some fields =>
        let tb1 := insertA tb n ⟨n, true, none⟩
        match fields.foldl (fieldStep (resolveT env ns fuel)) (some ([], [], tb1)) with
        | none => none
        | some (props, req, tb2) =>
          some (.ref (mkTok ns n), insertA tb2 n ⟨n, false, some (.obj props req)⟩)

/-- A sequence of further resolutions in the same document-build session
(arbitrary types resolved in between, spec §8 idempotence). -/
def resolveSeq (env : TypeEnv) (ns : String) (fuel : Nat) : Table → List TypeExpr → Option Table
  | tb, [] => some tb
  | tb, t :: ts =>
    match resolveT env ns fuel tb t with
    | none => none
    | some (_, tb') => resolveSeq env ns fuel tb' ts

/-! ## Token shape predicates (for the reference-path namespace, C10) -/

mutual

/-- Every reference token inside a schema is of the form `ns ++ name`. -/
def schemaNS (ns : String) : Schema → Prop
  | .ref tok => ∃ r, tok = ns ++ r
  | .scalar _ => True
  | .arr s => schemaNS ns s
  | .mapObj s => schemaNS ns s
  | .obj props _ => propsNS ns props

def propsNS (ns : String) : List (String × Schema) → Prop
  | [] => True
  | p :: ps => schemaNS ns p.2 ∧ propsNS ns ps

end

/-- Every node stored in a registry table has namespaced tokens only. -/
def tableNS (ns : String) (tb : Table) : Prop :=
  ∀ p ∈ tb, ∀ nd, p.2.node = some nd → schemaNS ns nd

/-- Every schema in a list has namespaced tokens only. -/
def bodiesNS (ns : String) (l : List Schema) : Prop :=
  ∀ s ∈ l, schemaNS ns s

/-! ## Self-reference detection (C2) -/

mutual

/-- Whether a schema contains the given reference token somewhere inside. -/
def mentionsTok : Schema → String → Bool
  | .ref t, tok => t == tok
  | .scalar _, _ => false
  | .arr s, tok => mentionsTok s tok
  | .mapObj s, tok => mentionsTok s tok
  | .obj props _, tok => mentionsProps props tok

def mentionsProps : List (String × Schema) → String → Bool
  | [], _ => false
  | p :: ps, tok => mentionsTok p.2 tok || mentionsProps ps tok

end

/-- The self-referencing field type: pointer-to-self when `byPtr`, else
slice-of-self (the two shapes named by the cycle-safety property). -/
def selfWrap (byPtr : Bool) (n : String) : TypeExpr :=
  if byPtr then .ptr (.named n) else .slice (.named n)

/-- The spec §8 scenario struct `{ID int; Name string; Tags []string;
Parent *Self}` as a one-type environment (used to instantiate the
cycle-safety property on a concrete input). -/
def envUser : TypeEnv :=
  [("User", [⟨"id", .prim .pInt⟩, ⟨"name", .prim .pString⟩,
    ⟨"tags", .slice (.prim .pString)⟩, ⟨"parent", .ptr (.named "User")⟩])]

/-- Structural depth of a type expression (named types count as leaves:
the registry's pending rule cuts recursion off there). -/
def depthT : TypeExpr → Nat
  | .prim _ => 1
  | .ptr t => depthT t + 1
  | .slice t => depthT t + 1
  | .smap t => depthT t + 1
  | .named _ => 1

/-- Largest structural depth among a struct's field types. -/
def fieldsDepth (fs : List FieldDecl) : Nat :=
  fs.foldr (fun fd acc => max (depthT fd.ftype) acc) 0

/-- Largest field depth over all declared struct types. -/
def envDepth (env : TypeEnv) : Nat :=
  env.foldr (fun p acc => max (fieldsDepth p.2) acc) 0

/-- Every named type mentioned inside the expression is declared. -/
def declaredIn (env : TypeEnv) : TypeExpr → Bool
  | .prim _ => true
  | .ptr t => declaredIn env t
  | .slice t => declaredIn env t
  | .smap t => declaredIn env t
  | .named m => (lookupA env m).isSome

/-- A closed type environment: every field type of every declared struct
mentions declared names only (the well-formedness of a Go program's type
graph — an undeclared name would be `UnsupportedType`, spec §4.2). -/
def closedEnv (env : TypeEnv) : Bool :=
  env.all fun p => p.2.all fun fd => declaredIn env fd.ftype

/-- Number of declared types that have no registry entry yet: the quantity
that shrinks whenever synthesis of a new named type starts. -/
def undone (env : TypeEnv) (tb : Table) : Nat :=
  (env.filter fun p => (lookupA tb p.1).isNone).length

/-- How many entries a table holds under one key (a well-formed registry
holds at most one — `insertA` never duplicates a key). -/
def keyCount (tb : Table) (k : String) : Nat :=
  (tb.filter fun p => p.1 = k).length

/-! ## Basic value sentinels (`types.go`) -/

/-- A Go basic value: a kind-tagged literal.  Numeric payloads are modelled
as `Int`/`Nat`; the only float/complex payloads the package constructs are the
exact zero literals, so no floating-point rounding is involved. -/
inductive GoVal : Type where
  | vInt (v : Int)
  | vInt8 (v : Int)
  | vInt16 (v : Int)
  | vInt32 (v : Int)
  | vInt64 (v : Int)
  | vUint (v : Nat)
  | vUint8 (v : Nat)
  | vUint16 (v : Nat)
  | vUint32 (v : Nat)
  | vUint64 (v : Nat)
  | vUintPtr (v : Nat)
  | vFloat32 (v : Int)
  | vFloat64 (v : Int)
  | vComplex64 (re im : Int)
  | vComplex128 (re im : Int)
  | vString (s : String)
  | vBool (b : Bool)
deriving DecidableEq

/-- The Go primitive kinds exported as sentinels in `types.go`.  `byte` and
`rune` are Go type aliases of `uint8` and `int32` respectively. -/
inductive BasicKind : Type where
  | kInt | kInt8 | kInt16 | kInt32 | kInt64
  | kUint | kUint8 | kUint16 | kUint32 | kUint64 | kUintPtr
  | kFloat32 | kFloat64
  | kComplex64 | kComplex128
  | kString | kBool | kByte | kRune
deriving DecidableEq

/-- The Go zero value of each basic kind (`byte`/`rune` are aliases, so their
zero values are `uint8(0)` / `int32(0)`). -/
def zeroOf : BasicKind → GoVal
  | .kInt => .vInt 0
  | .kInt8 => .vInt8 0
  | .kInt16 => .vInt16 0
  | .kInt32 => .vInt32 0
  | .kInt64 => .vInt64 0
  | .kUint => .vUint 0
  | .kUint8 => .vUint8 0
  | .kUint16 => .vUint16 0
  | .kUint32 => .vUint32 0
  | .kUint64 => .vUint64 0
  | .kUintPtr => .vUintPtr 0
  | .kFloat32 => .vFloat32 0
  | .kFloat64 => .vFloat64 0
  | .kComplex64 => .vComplex64 0 0
  | .kComplex128 => .vComplex128 0 0
  | .kString => .vString ""
  | .kBool => .vBool false
  | .kByte => .vUint8 0
  | .kRune => .vInt32 0

/-- `IntType = int(0)` (types.go). -/
def IntType : GoVal := .vInt 0

/-- `Int8Type = int8(0)` (types.go). -/
def Int8Type : GoVal := .vInt8 0

/-- `Int16Type = int16(0)` (types.go). -/
def Int16Type : GoVal := .vInt16 0

/-- `Int32Type = int32(0)` (types.go). -/
def Int32Type : GoVal := .vInt32 0

/-- `Int64Type = int64(0)` (types.go). -/
def Int64Type : GoVal := .vInt64 0

/-- `UintType = uint(0)` (types.go). -/
def UintType : GoVal := .vUint 0

/-- `Uint8Type = uint8(0)` (types.go). -/
def Uint8Type : GoVal := .vUint8 0

/-- `Uint16Type = uint16(0)` (types.go). -/
def Uint16Type : GoVal := .vUint16 0

/-- `Uint32Type = uint32(0)` (types.go). -/
def Uint32Type : GoVal := .vUint32 0

/-- `Uint64Type = uint64(0)` (types.go). -/
def Uint64Type : GoVal := .vUint64 0

/-- `UintPtrType = uintptr(0)` (types.go). -/
def UintPtrType : GoVal := .vUintPtr 0

/-- `Float32Type = float32(0)` (types.go). -/
def Float32Type : GoVal := .vFloat32 0

/-- `Float64Type = float64(0)` (types.go). -/
def Float64Type : GoVal := .vFloat64 0

/-- `Complex64Type = complex64(0)` (types.go). -/
def Complex64Type : GoVal := .vComplex64 0 0

/-- `Complex128Type = complex128(0)` (types.go). -/
def Complex128Type : GoVal := .vComplex128 0 0

/-- `StringType = ""` (types.go). -/
def StringType : GoVal := .vString ""

/-- `BoolType = false` (types.go). -/
def BoolType : GoVal := .vBool false

/-- `ByteType = byte(0)` (types.go); `byte` aliases `uint8`. -/
def ByteType : GoVal := .vUint8 0

/-- `RuneType = rune(0)` (types.go); `rune` aliases `int32`. -/
def RuneType : GoVal := .vInt32 0

/-! ## Examples (`ExampleBuilder`, builder.go) -/

/-- `Example` object; `Value` is Go `any` (nil = `none`). -/
structure Example : Type where
  ref : String := ""
  summary : String := ""
  description : String := ""
  value : Option GoVal := none
  externalValue : String := ""
deriving DecidableEq

/-- `ExampleBuilder.Value` (builder.go): panics when `ExternalValue` is
already set, otherwise records the value. -/
def exampleValue (e : Example) (v : Option GoVal) : Except String Example :=
  if e.externalValue ≠ "" then
    .error "Value and ExternalValue cannot both be set on example, pick one"
  else
    .ok { e with value := v }

/-- `ExampleBuilder.ExternalValue` (builder.go): panics when `Value` is
already non-nil, otherwise records the URI. -/
def exampleExternalValue (e : Example) (uri : String) : Except String Example :=
  if e.value ≠ none then
    .error "Value and ExternalValue cannot both be set on example, pick one"
  else
    .ok { e with externalValue := uri }

/-! ## License (`LicenseBuilder`, builder.go) -/

/-- `License` object. -/
structure License : Type where
  name : String := ""
  identifier : String := ""
  url : String := ""
deriving DecidableEq

/-- `LicenseBuilder.Identifier` (builder.go): panics when the URL is already
set, otherwise records the identifier. -/
def licenseIdentifier (lic : License) (identifier : String) : Except String License :=
  if lic.url ≠ "" then
    .error "license url and identifier cannot both be set, set only one of them"
  else
    .ok { lic with identifier := identifier }

/-- `LicenseBuilder.URL` (builder.go): panics when the Identifier is already
set, otherwise records the URL. -/
def licenseURL (lic : License) (url : String) : Except String License :=
  if lic.identifier ≠ "" then
    .error "license url and identifier cannot both be set, set only one of them"
  else
    .ok { lic with url := url }

/-! ## Responses, headers and links (builder.go) -/

/-- `Param` object (subset of fields the builders touch). -/
structure Param : Type where
  name : String := ""
  inn : String := ""
  description : String := ""
  style : String := ""
  required : Bool := false
  exampleStr : String := ""
  schema : Option Schema := none
  examples : Option (List (String × Example)) := none
  explode : Option Bool := none

/-- `MediaType` object. -/
structure MediaType : Type where
  schema : Option Schema := none
  exampleStr : String := ""
  examples : Option (List (String × Example)) := none

/-- `Server` object. -/
structure Server : Type where
  url : String := ""
  description : String := ""
  vars : Option (List (String × String)) := none

/-- `Link` object. -/
structure Link : Type where
  operationRef : String := ""
  operationID : String := ""
  description : String := ""
  parameters : Option (List (String × GoVal)) := none
  requestBody : Option GoVal := none
  server : Option Server := none

/-- `Response` object.  A freshly allocated `&Response{}` has *nil*
`Headers`, `Content` and `Links` maps. -/
structure Response : Type where
  description : String := ""
  headers : Option (List (String × Param)) := none
  content : Option (List (String × MediaType)) := none
  links : Option (List (String × Link)) := none

/-- `Operation` object (subset of fields the builders touch). -/
structure Operation : Type where
  method : String := ""
  path : String := ""
  operationID : String := ""
  tags : List String := []
  summary : String := ""
  description : String := ""
  security : List (String × List String) := []
  responses : Option (List (String × Response)) := none
  parameters : List Param := []

/-- `Builder.Register` (builder.go): panics when method or path is missing,
otherwise initializes the operation's `Responses` map. -/
def registerOp (op : Operation) : Except String Operation :=
  if op.method = "" ∨ op.path = "" then
    .error "method and path must be specified in operation"
  else
    .ok { op with responses := some [] }

/-- `OperationBuilder.Response` (builder.go): formats the status code,
inserts a fresh `&Response{}` when the key is absent, and hands that response
to the `ResponseBuilder`. -/
def opResponse (op : Operation) (status : Nat) : Except String (Operation × Response) :=
  let statusStr := toString status
  match mapGet op.responses statusStr with
  | some resp => .ok (op, resp)
  | none =>
    match mapSet op.responses statusStr {} with
    | .error m => .error m
    | .ok rs => .ok ({ op with responses := rs }, {})

/-- `ResponseBuilder.Header` (builder.go): resolves the header's schema via
the registry, then executes `rb.response.Headers[name] = param`. -/
def respHeader (env : TypeEnv) (ns : String) (fuel : Nat) (tb : Table)
    (resp : Response) (name : String) (t : TypeExpr) :
    Except String (Table × Response × Param) :=
  match resolveT env ns fuel tb t with
  | none => .error "unsupported type"
  | some (s, tb') =>
    let param : Param := { schema := some s }
    match mapSet resp.headers name param with
    | .error m => .error m
    | .ok hs => .ok (tb', { resp with headers := hs }, param)

/-- `ResponseBuilder.Link` (builder.go): executes
`rb.response.Links[name] = link` with a fresh link. -/
def respLink (resp : Response) (name : String) : Except String (Response × Link) :=
  let link : Link := {}
  match mapSet resp.links name link with
  | .error m => .error m
  | .ok ls => .ok ({ resp with links := ls }, link)

/-! ## OAuth2 flows (builder.go)

`OAuthFlows` holds four `*OAuthFlow` pointers and every `OAuthFlowBuilder`
holds one such pointer; mutation happens through the pointer.  The pointers
are modelled as indices into an explicit heap of flow cells. -/

/-- `OAuthFlow` object. -/
structure OAuthFlow : Type where
  authorizationURL : String := ""
  tokenURL : String := ""
  refreshURL : String := ""
  scopes : List (String × String) := []
deriving DecidableEq

/-- `OAuthFlows` object: four nilable pointers to flow cells. -/
structure OAuthFlows : Type where
  implicit : Option Nat := none
  password : Option Nat := none
  clientCredentials : Option Nat := none
  authorizationCode : Option Nat := none
deriving DecidableEq

/-- The mutable state reachable from an `OAuth2Builder`: the flows record and
the heap of flow cells. -/
structure FlowSt : Type where
  flows : OAuthFlows := {}
  heap : List OAuthFlow := []
deriving DecidableEq

/-- Allocate a fresh flow cell (`&OAuthFlow{}`). -/
def allocFlow (st : FlowSt) (f : OAuthFlow) : Nat × FlowSt :=
  (st.heap.length, { st with heap := st.heap ++ [f] })

/-- `OAuthFlowBuilder`: holds one (possibly nil) `*OAuthFlow`. -/
structure OAuthFlowBuilder : Type where
  flowPtr : Option Nat

/-- `OAuth2Builder.Implicit` (builder.go): allocates a flow, stores it in
`flows.Implicit`, and returns a builder on that pointer. -/
def oauthImplicit (st : FlowSt) : FlowSt × OAuthFlowBuilder :=
  let (a, st1) := allocFlow st {}
  let st2 := { st1 with flows := { st1.flows with implicit := some a } }
  (st2, ⟨st2.flows.implicit⟩)

/-- `OAuth2Builder.Password` (builder.go): allocates a flow, stores it in
`flows.Password`, and returns a builder on that pointer. -/
def oauthPassword (st : FlowSt) : FlowSt × OAuthFlowBuilder :=
  let (a, st1) := allocFlow st {}
  let st2 := { st1 with flows := { st1.flows with password := some a } }
  (st2, ⟨st2.flows.password⟩)

/-- `OAuth2Builder.ClientCredentials` (builder.go): allocates a flow and
stores it in `flows.ClientCredentials`, but the returned builder carries
`flow: ob.flows.Password` — the Password pointer, exactly as the source
reads. -/
def oauthClientCredentials (st : FlowSt) : FlowSt × OAuthFlowBuilder :=
  let (a, st1) := allocFlow st {}
  let st2 := { st1 with flows := { st1.flows with clientCredentials := some a } }
  (st2, ⟨st2.flows.password⟩)

/-- `OAuth2Builder.AuthorizationCode` (builder.go). -/
def oauthAuthorizationCode (st : FlowSt) : FlowSt × OAuthFlowBuilder :=
  let (a, st1) := allocFlow st {}
  let st2 := { st1 with flows := { st1.flows with authorizationCode := some a } }
  (st2, ⟨st2.flows.authorizationCode⟩)

/-- `OAuthFlowBuilder.TokenURL` (builder.go): `b.flow.TokenURL = url`; a nil
pointer is a runtime panic. -/
def flowTokenURL (st : FlowSt) (b : OAuthFlowBuilder) (url : String) : Except String FlowSt :=
  match b.flowPtr with
  | none => .error "runtime error: invalid memory address or nil pointer dereference"
  | some a =>
    match st.heap.get? a with
    | none => .error "runtime error: invalid memory address or nil pointer dereference"
    | some f => .ok { st with heap := st.heap.set a { f with tokenURL := url } }

/-- `OAuthFlowBuilder.AuthorizationURL` (builder.go). -/
def flowAuthorizationURL (st : FlowSt) (b : OAuthFlowBuilder) (url : String) :
    Except String FlowSt :=
  match b.flowPtr with
  | none => .error "runtime error: invalid memory address or nil pointer dereference"
  | some a =>
    match st.heap.get? a with
    | none => .error "runtime error: invalid memory address or nil pointer dereference"
    | some f => .ok { st with heap := st.heap.set a { f with authorizationURL := url } }

/-! ## Security schemes (builder.go) -/

/-- `SecurityScheme` object (flows omitted; `inn` is Go's `In` field). -/
structure SecurityScheme : Type where
  type : String := ""
  scheme : String := ""
  name : String := ""
  inn : String := ""
  openIdConnectURL : String := ""
deriving DecidableEq

/-- `Builder.BasicAuth` (builder.go). -/
def basicAuth (m : List (String × SecurityScheme)) : List (String × SecurityScheme) :=
  insertA m "BasicAuth" { type := "http", scheme := "basic" }

/-- `Builder.BearerAuth` (builder.go). -/
def bearerAuth (m : List (String × SecurityScheme)) : List (String × SecurityScheme) :=
  insertA m "BearerAuth" { type := "http", scheme := "bearer" }

/-- `Builder.ApiKeyAuth` (builder.go): registers an `apiKey`-in-header scheme
under the key `"ApiKeyAuth"`. -/
def apiKeyAuth (m : List (String × SecurityScheme)) (header : String) :
    List (String × SecurityScheme) :=
  insertA m "ApiKeyAuth" { type := "apiKey", inn := "header", name := header }

/-- `Builder.OpenID` (builder.go): the source stores the `openIdConnect`
scheme under the map key `"ApiKeyAuth"`:
`b.openAPI.Components.SecuritySchemes["ApiKeyAuth"] = &SecurityScheme{...}`. -/
def openID (m : List (String × SecurityScheme)) (url : String) :
    List (String × SecurityScheme) :=
  insertA m "ApiKeyAuth" { type := "openIdConnect", openIdConnectURL := url }

/-! ## Fresh builders and cross-builder independence (`New`, builder.go)

`New` allocates a fresh `MapRegistry` and a fresh `SecuritySchemes` map on
every call.  To state that two builders never share these tables, the two
allocations are modelled as cells in an explicit world, addressed by `Nat`;
`New` draws fresh addresses from an allocation counter. -/

/-- The registry constructed by `NewMapRegistry(prefix, namer)`:
its reference-path namespace string and its table. -/
structure MapRegistry : Type where
  pathNs : String
  table : Table

/-- Update one cell of a `Nat`-addressed store. -/
def updF {α : Type} (f : Nat → α) (a : Nat) (v : α) : Nat → α :=
  fun x => if x = a then v else f x

/-- The mutable world shared by all builder sessions: an allocation counter,
the registry cells and the security-scheme-map cells. -/
structure World : Type where
  next : Nat
  regs : Nat → MapRegistry
  secs : Nat → List (String × SecurityScheme)

/-- One builder session (`Builder` wrapping its `OpenAPI` document): the
addresses of its registry and its security-scheme map, plus the
document-local state that no other builder can reach. -/
structure BuilderB : Type where
  regAddr : Nat
  secAddr : Nat
  title : String
  version : String
  security : List (String × List String) := []
  ops : List Operation := []
  bodies : List Schema := []

/-- `New(title, version)` (builder.go): constructs a fresh registry with the
`"#/components/schemas/"` reference path and a fresh empty security-scheme
map, and returns a builder owning both. -/
def newB (w : World) (title version : String) : BuilderB × World :=
  ({ regAddr := w.next, secAddr := w.next + 1, title := title, version := version },
   { next := w.next + 2,
     regs := updF w.regs w.next ⟨"#/components/schemas/", []⟩,
     secs := updF w.secs (w.next + 1) [] })

/-- Builder operations of one session named by the independence property:
registering an operation, adding global security, adding a bearer scheme, and
resolving a request/response body type against the session registry. -/
inductive BOp : Type where
  | register (method path : String)
  | security (scheme : String) (params : List String)
  | bearer
  | resolveBody (fuel : Nat) (t : TypeExpr)

/-- One builder step.  A Go panic aborts the build before mutating anything,
so the failing guards leave the state unchanged here. -/
def stepB (env : TypeEnv) (w : World) (b : BuilderB) : BOp → World × BuilderB
  | .register method path =>
    match registerOp { method := method, path := path } with
    | .error _ => (w, b)
    | .ok op => (w, { b with ops := b.ops ++ [op] })
  | .security scheme params =>
    (w, { b with security := b.security ++ [(scheme, params)] })
  | .bearer =>
    ({ w with secs := updF w.secs b.secAddr (bearerAuth (w.secs b.secAddr)) }, b)
  | .resolveBody fuel t =>
    let reg := w.regs b.regAddr
    match resolveT env reg.pathNs fuel reg.table t with
    | none => (w, b)
    | some (s, tb') =>
      ({ w with regs := updF w.regs b.regAddr { reg with table := tb' } },
       { b with bodies := b.bodies ++ [s] })

/-- Run a whole sequence of builder operations in one session. -/
def runOps (env : TypeEnv) : List BOp → World → BuilderB → World × BuilderB
  | [], w, b => (w, b)
  | op :: ops, w, b =>
    let (w', b') := stepB env w b op
    runOps env ops w' b'

/-! ## Lemmas about the Go-map association lists -/

theorem lookupA_insertA_self {α : Type} (l : List (String × α)) (k : String) (v : α) :
    lookupA (insertA l k v) k = some v := by
  induction l with
  | nil => simp [insertA, lookupA]
  | cons p ps ih =>
    by_cases h : p.1 = k
    · simp [insertA, lookupA, h]
    · simp [insertA, lookupA, h, ih]

theorem lookupA_insertA_ne {α : Type} (l : List (String × α)) (k n : String) (v : α)
    (h : n ≠ k) : lookupA (insertA l k v) n = lookupA l n := by
  have h' : ¬(k = n) := fun hc => h hc.symm
  induction l with
  | nil => simp [insertA, lookupA, h']
  | cons p ps ih =>
    by_cases hp : p.1 = k
    · subst hp
      simp [insertA, lookupA, h']
    · simp [insertA, lookupA, hp, ih]

theorem mem_insertA {α : Type} (l : List (String × α)) (k : String) (v : α) (p : String × α)
    (h : p ∈ insertA l k v) : p = (k, v) ∨ p ∈ l := by
  induction l with
  | nil => simpa [insertA] using h
  | cons q qs ih =>
    by_cases hq : q.1 = k
    · simp [insertA, hq] at h
      rcases h with h | h
      · exact Or.inl h
      · exact Or.inr (List.mem_cons_of_mem _ h)
    · simp [insertA, hq] at h
      rcases h with h | h
      · exact Or.inr (by simp [h])
      · rcases ih h with h' | h'
        · exact Or.inl h'
        · exact Or.inr (List.mem_cons_of_mem _ h')

/-! ## Registry invariants: entries are write-once and append-only (spec §3)

`resolveT` never modifies an entry that already exists when it is called: the
only overwrite is the `pending → complete` transition performed by the very
call that inserted the `pending` marker, for a key that was absent at entry.
-/

theorem foldl_fieldStep_none (rT : Table → TypeExpr → Option (Schema × Table))
    (fs : List FieldDecl) : fs.foldl (fieldStep rT) none = none := by
  induction fs with
  | nil => rfl
  | cons fd fs ih => simpa [fieldStep] using ih

theorem foldl_fieldStep_keep (rT : Table → TypeExpr → Option (Schema × Table))
    (hT : ∀ tb t r, rT tb t = some r → ∀ n e, lookupA tb n = some e → lookupA r.2 n = some e) :
    ∀ (fs : List FieldDecl) (props : List (String × Schema)) (req : List String) (tb : Table)
      (r : List (String × Schema) × List String × Table),
      fs.foldl (fieldStep rT) (some (props, req, tb)) = some r →
      ∀ n e, lookupA tb n = some e → lookupA r.2.2 n = some e := by
  intro fs
  induction fs with
  | nil =>
    intro props req tb r h n e he
    simp only [List.foldl_nil, Option.some.injEq] at h
    subst h
    exact he
  | cons fd fs ih =>
    intro props req tb r h n e he
    simp only [List.foldl_cons] at h
    cases hr : rT tb fd.ftype with
    | none =>
      rw [show fieldStep rT (some (props, req, tb)) fd = none by
        simp [fieldStep, hr]] at h
      rw [foldl_fieldStep_none] at h
      exact absurd h (by simp)
    | some p =>
      rw [show fieldStep rT (some (props, req, tb)) fd =
            some (props ++ [(fd.fname, p.1)],
                  (if isOpt fd.ftype then req else req ++ [fd.fname]), p.2) by
        simp [fieldStep, hr]] at h
      exact ih _ _ _ _ h n e (hT tb fd.ftype p hr n e he)

/-- `resolveT` preserves every pre-existing registry entry verbatim. -/
theorem resolveT_keep (env : TypeEnv) (ns : String) :
    ∀ (fuel : Nat) (tb : Table) (t : TypeExpr) (r : Schema × Table),
      resolveT env ns fuel tb t = some r →
      ∀ n e, lookupA tb n = some e → lookupA r.2 n = some e := by
  intro fuel
  induction fuel with
  | zero => intro tb t r h; exact absurd h (by simp [resolveT])
  | succ fuel ih =>
    intro tb t r h n e he
    cases t with
    | prim k =>
      simp only [resolveT, Option.some.injEq] at h
      subst h; exact he
    | ptr t => exact ih tb t r h n e he
    | slice t =>
      simp only [resolveT] at h
      cases hr : resolveT env ns fuel tb t with
      | none => rw [hr] at h; exact absurd h (by simp)
      | some p =>
        rw [hr] at h
        simp only [Option.some.injEq] at h
        subst h
        exact ih tb t p hr n e he
    | smap t =>
      simp only [resolveT] at h
      cases hr : resolveT env ns fuel tb t with
      | none => rw [hr] at h; exact absurd h (by simp)
      | some p =>
        rw [hr] at h
        simp only [Option.some.injEq] at h
        subst h
        exact ih tb t p hr n e he
    | named m =>
      simp only [resolveT] at h
      split at h
      · rename_i em hm
        simp only [Option.some.injEq] at h
        subst h
        exact he
      · rename_i hm
        split at h
        · exact absurd h (by simp)
        · rename_i fields hev
          have hnm : n ≠ m := by
            intro hc; subst hc; rw [he] at hm; exact absurd hm (by simp)
          split at h
          · exact absurd h (by simp)
          · rename_i props req tb2 hf
            simp only [Option.some.injEq] at h
            have he1 : lookupA (insertA tb m ⟨m, true, none⟩) n = some e := by
              rw [lookupA_insertA_ne tb m n _ hnm]; exact he
            have he2 : lookupA tb2 n = some e :=
              foldl_fieldStep_keep (resolveT env ns fuel) ih fields [] [] _
                (props, req, tb2) hf n e he1
            subst h
            simpa [lookupA_insertA_ne tb2 m n _ hnm] using he2

/-- A whole session of further resolutions preserves pre-existing entries. -/
theorem resolveSeq_keep (env : TypeEnv) (ns : String) (fuel : Nat) :
    ∀ (ts : List TypeExpr) (tb tb' : Table),
      resolveSeq env ns fuel tb ts = some tb' →
      ∀ n e, lookupA tb n = some e → lookupA tb' n = some e := by
  intro ts
  induction ts with
  | nil =>
    intro tb tb' h n e he
    simp only [resolveSeq, Option.some.injEq] at h
    subst h; exact he
  | cons t ts ih =>
    intro tb tb' h n e he
    simp only [resolveSeq] at h
    cases hr : resolveT env ns fuel tb t with
    | none => rw [hr] at h; exact absurd h (by simp)
    | some p =>
      rw [hr] at h
      exact ih p.2 tb' h n e (resolveT_keep env ns fuel tb t p hr n e he)

/-- A cache hit (pending or complete entry) returns the entry's reference
token at once and leaves the table untouched (spec §4.3 steps 1–2). -/
theorem resolveT_hit (env : TypeEnv) (ns : String) (fuel : Nat) (tb : Table)
    (n : String) (e : RegEntry) (h : lookupA tb n = some e) :
    resolveT env ns (fuel + 1) tb (.named n) = some (.ref (mkTok ns e.rname), tb) := by
  simp [resolveT, h]

/-- A successful first resolution of an absent named type returns the token
built from the declared name and stores a complete entry under that name. -/
theorem resolveT_creates (env : TypeEnv) (ns : String) (fuel : Nat) (tb : Table)
    (n : String) (r : Schema × Table) (h0 : lookupA tb n = none)
    (h : resolveT env ns fuel tb (.named n) = some r) :
    ∃ node, r.1 = .ref (mkTok ns n) ∧ lookupA r.2 n = some ⟨n, false, some node⟩ := by
  cases fuel with
  | zero => exact absurd h (by simp [resolveT])
  | succ fuel =>
    simp only [resolveT, h0] at h
    split at h
    · exact absurd h (by simp)
    · rename_i fields hev
      split at h
      · exact absurd h (by simp)
      · rename_i props req tb2 hf
        simp only [Option.some.injEq] at h
        refine ⟨.obj props req, ?_, ?_⟩
        · rw [← h]
        · rw [← h]
          simp [lookupA_insertA_self]

/-! ## C1: registry resolution is idempotent -/

/-- **C1**: Resolving the same type twice within one document-build session,
in any order and regardless of what is resolved in between, yields the same
assigned name, the same reference token, and identical SchemaNode content:
after a successful resolve of a named type, an arbitrary successful sequence
of other resolutions, and a second resolve of the same type, the second
resolve leaves the table untouched and both resolves return the reference
token of one and the same registry entry (same assigned name `rname`, same
stored `node`). -/
theorem resolve_idempotent (env : TypeEnv) (ns : String) (f1 f2 fs : Nat)
    (tb0 tb2 : Table) (n : String) (r1 r2 : Schema × Table) (ts : List TypeExpr)
    (h1 : resolveT env ns f1 tb0 (.named n) = some r1)
    (hs : resolveSeq env ns fs r1.2 ts = some tb2)
    (h2 : resolveT env ns f2 tb2 (.named n) = some r2) :
    r2.2 = tb2 ∧ ∃ e : RegEntry, lookupA r1.2 n = some e ∧ lookupA tb2 n = some e ∧
      r1.1 = .ref (mkTok ns e.rname) ∧ r2.1 = r1.1 := by
  have hfirst : ∃ e : RegEntry, lookupA r1.2 n = some e ∧ r1.1 = .ref (mkTok ns e.rname) := by
    cases hm : lookupA tb0 n with
    | some e =>
      cases f1 with
      | zero => exact absurd h1 (by simp [resolveT])
      | succ f1 =>
        rw [resolveT_hit env ns f1 tb0 n e hm] at h1
        simp only [Option.some.injEq] at h1
        subst h1
        exact ⟨e, hm, rfl⟩
    | none =>
      obtain ⟨node, hr1, hl1⟩ := resolveT_creates env ns f1 tb0 n r1 hm h1
      exact ⟨⟨n, false, some node⟩, hl1, hr1⟩
  obtain ⟨e, hl1, hr1⟩ := hfirst
  have hl2 : lookupA tb2 n = some e := resolveSeq_keep env ns fs ts r1.2 tb2 hs n e hl1
  cases f2 with
  | zero => exact absurd h2 (by simp [resolveT])
  | succ f2 =>
    rw [resolveT_hit env ns f2 tb2 n e hl2] at h2
    simp only [Option.some.injEq] at h2
    subst h2
    exact ⟨rfl, e, hl1, hl2, hr1, hr1.symm⟩

/-- Witness for C1 at a concrete session: a `User` struct is resolved, then a
string and `User` again are resolved in between, then `User` is resolved a
second time; the hypotheses hold by computation and the theorem applies. -/
theorem resolve_idempotent_witness :
    (resolveT [("User", [⟨"id", .prim .pInt⟩])] "#/components/schemas/" 3 [] (.named "User") =
      some (.ref "#/components/schemas/User",
        [("User", ⟨"User", false, some (.obj [("id", .scalar .pInt)] ["id"])⟩)])) ∧
    (resolveSeq [("User", [⟨"id", .prim .pInt⟩])] "#/components/schemas/" 3
      [("User", ⟨"User", false, some (.obj [("id", .scalar .pInt)] ["id"])⟩)]
      [.prim .pString, .named "User"] =
      some [("User", ⟨"User", false, some (.obj [("id", .scalar .pInt)] ["id"])⟩)]) ∧
    (resolveT [("User", [⟨"id", .prim .pInt⟩])] "#/components/schemas/" 3
      [("User", ⟨"User", false, some (.obj [("id", .scalar .pInt)] ["id"])⟩)] (.named "User") =
      some (.ref "#/components/schemas/User",
        [("User", ⟨"User", false, some (.obj [("id", .scalar .pInt)] ["id"])⟩)])) ∧
    (∃ e : RegEntry,
      lookupA [("User", (⟨"User", false, some (.obj [("id", .scalar .pInt)] ["id"])⟩ : RegEntry))]
        "User" = some e ∧
      lookupA [("User", (⟨"User", false, some (.obj [("id", .scalar .pInt)] ["id"])⟩ : RegEntry))]
        "User" = some e ∧
      Schema.ref "#/components/schemas/User" = .ref (mkTok "#/components/schemas/" e.rname) ∧
      Schema.ref "#/components/schemas/User" = Schema.ref "#/components/schemas/User") :=
  ⟨rfl, rfl, rfl,
   (resolve_idempotent [("User", [⟨"id", .prim .pInt⟩])] "#/components/schemas/" 3 3 3
     [] [("User", ⟨"User", false, some (.obj [("id", .scalar .pInt)] ["id"])⟩)] "User"
     (.ref "#/components/schemas/User",
       [("User", ⟨"User", false, some (.obj [("id", .scalar .pInt)] ["id"])⟩)])
     (.ref "#/components/schemas/User",
       [("User", ⟨"User", false, some (.obj [("id", .scalar .pInt)] ["id"])⟩)])
     [.prim .pString, .named "User"] rfl rfl rfl).2⟩

/-! ## C2: self-referential types resolve without recursion blow-up

The generalized development: fuel monotonicity (the result is stable once
enough fuel is available — the formal meaning of "terminates"), a uniform
fuel bound for arbitrary closed type environments, uniqueness of the
registry entry per type, and the self-reference inside the stored node. -/

theorem lookupA_mem {α : Type} :
    ∀ (l : List (String × α)) (k : String) (v : α), lookupA l k = some v → (k, v) ∈ l := by
  intro l
  induction l with
  | nil => intro k v h; exact absurd h (by simp [lookupA])
  | cons p ps ih =>
    intro k v h
    by_cases hp : p.1 = k
    · simp only [lookupA, hp, if_pos] at h
      simp only [Option.some.injEq] at h
      have hpv : p = (k, v) := by
        cases p
        simp only at hp h
        rw [hp, h]
      rw [← hpv]
      exact List.mem_cons_self _ _
    · simp only [lookupA, hp, if_neg, not_false_iff] at h
      exact List.mem_cons_of_mem _ (ih k v h)

theorem keyCount_insertA_ne (l : Table) (kin k : String) (v : RegEntry) (h : k ≠ kin) :
    keyCount (insertA l kin v) k = keyCount l k := by
  have h' : (kin = k) = False := eq_false fun hc => h hc.symm
  induction l with
  | nil => simp [insertA, keyCount, h']
  | cons p ps ih =>
    by_cases hp : p.1 = kin
    · simp [insertA, keyCount, hp, h', List.filter] at ih ⊢
    · simp only [insertA, hp, if_neg, not_false_iff]
      simp [keyCount, List.filter] at ih ⊢
      cases hd : decide (p.1 = k) <;> simp [hd, ih]

theorem keyCount_insertA_absent (l : Table) (k : String) (v : RegEntry)
    (h : lookupA l k = none) : keyCount (insertA l k v) k = 1 := by
  induction l with
  | nil => simp [insertA, keyCount]
  | cons p ps ih =>
    by_cases hp : p.1 = k
    · rw [lookupA, if_pos hp] at h
      exact absurd h (by simp)
    · rw [lookupA, if_neg hp] at h
      simp only [insertA, hp, if_neg, not_false_iff]
      simp [keyCount, List.filter, hp] at ih ⊢
      exact ih h

theorem keyCount_insertA_present (l : Table) (k : String) (v e : RegEntry)
    (h : lookupA l k = some e) : keyCount (insertA l k v) k = keyCount l k := by
  induction l with
  | nil => exact absurd h (by simp [lookupA])
  | cons p ps ih =>
    by_cases hp : p.1 = k
    · simp [insertA, keyCount, hp, List.filter]
    · rw [lookupA, if_neg hp] at h
      simp only [insertA, hp, if_neg, not_false_iff]
      simp [keyCount, List.filter, hp] at ih ⊢
      cases hd : decide (p.1 = k) <;> simp [hd, ih h]

theorem keyCount_zero_of_none (l : Table) (k : String) (h : lookupA l k = none) :
    keyCount l k = 0 := by
  induction l with
  | nil => simp [keyCount]
  | cons p ps ih =>
    by_cases hp : p.1 = k
    · rw [lookupA, if_pos hp] at h
      exact absurd h (by simp)
    · rw [lookupA, if_neg hp] at h
      simp [keyCount, List.filter, hp] at ih ⊢
      exact ih h

theorem filter_length_mono {α : Type} (l : List α) (p q : α → Bool)
    (h : ∀ x ∈ l, q x = true → p x = true) :
    (l.filter q).length ≤ (l.filter p).length := by
  induction l with
  | nil => simp
  | cons a as ih =>
    have ih' := ih fun x hx => h x (List.mem_cons_of_mem _ hx)
    cases hq : q a with
    | true =>
      have hp := h a (List.mem_cons_self a as) hq
      simp [List.filter_cons, hq, hp]
      omega
    | false =>
      cases hp : p a <;> simp [List.filter_cons, hq, hp] <;> omega

theorem filter_length_lt {α : Type} (l : List α) (p q : α → Bool)
    (h : ∀ x ∈ l, q x = true → p x = true)
    (x0 : α) (hx0 : x0 ∈ l) (hp0 : p x0 = true) (hq0 : q x0 = false) :
    (l.filter q).length < (l.filter p).length := by
  induction l with
  | nil => exact absurd hx0 (by simp)
  | cons a as ih =>
    have hmono := filter_length_mono as p q fun x hx => h x (List.mem_cons_of_mem _ hx)
    rcases List.mem_cons.1 hx0 with h0 | h0
    · subst h0
      simp [List.filter_cons, hp0, hq0]
      omega
    · have ih' := ih (fun x hx => h x (List.mem_cons_of_mem _ hx)) h0
      cases hq : q a with
      | true =>
        have hp := h a (List.mem_cons_self a as) hq
        simp [List.filter_cons, hq, hp]
        omega
      | false =>
        cases hp : p a <;> simp [List.filter_cons, hq, hp] <;> omega

theorem undone_keep_mono (env : TypeEnv) (tb tb' : Table)
    (h : ∀ k e, lookupA tb k = some e → lookupA tb' k = some e) :
    undone env tb' ≤ undone env tb := by
  apply filter_length_mono
  intro x _ hx
  simp only [Option.isNone_iff_eq_none] at hx ⊢
  cases he : lookupA tb x.1 with
  | none => rfl
  | some e => rw [h x.1 e he] at hx; exact absurd hx (by simp)

theorem undone_insert_lt (env : TypeEnv) (tb : Table) (m : String) (fs : List FieldDecl)
    (e : RegEntry) (henv : lookupA env m = some fs) (htb : lookupA tb m = none) :
    undone env (insertA tb m e) < undone env tb := by
  apply filter_length_lt _ _ _ _ (m, fs) (lookupA_mem env m fs henv)
  · simp [Option.isNone_iff_eq_none, htb]
  · simp [Option.isNone_iff_eq_none, lookupA_insertA_self]
  · intro x _ hx
    simp only [Option.isNone_iff_eq_none] at hx ⊢
    by_cases hxm : x.1 = m
    · rw [hxm, lookupA_insertA_self] at hx
      exact absurd hx (by simp)
    · rw [lookupA_insertA_ne tb m x.1 e hxm] at hx
      exact hx

theorem foldl_fieldStep_mono (rT rT' : Table → TypeExpr → Option (Schema × Table))
    (hT : ∀ tb t r, rT tb t = some r → rT' tb t = some r) :
    ∀ (fs : List FieldDecl) (acc : Option (List (String × Schema) × List String × Table))
      (r : List (String × Schema) × List String × Table),
      fs.foldl (fieldStep rT) acc = some r → fs.foldl (fieldStep rT') acc = some r := by
  intro fs
  induction fs with
  | nil => intro acc r h; exact h
  | cons fd fs ih =>
    intro acc r h
    cases acc with
    | none =>
      rw [List.foldl_cons, show fieldStep rT none fd = none from rfl,
        foldl_fieldStep_none] at h
      exact absurd h (by simp)
    | some a =>
      obtain ⟨props, req, tb⟩ := a
      simp only [List.foldl_cons] at h ⊢
      cases hr : rT tb fd.ftype with
      | none =>
        rw [show fieldStep rT (some (props, req, tb)) fd = none by simp [fieldStep, hr]] at h
        rw [foldl_fieldStep_none] at h
        exact absurd h (by simp)
      | some p =>
        rw [show fieldStep rT (some (props, req, tb)) fd =
              some (props ++ [(fd.fname, p.1)],
                (if isOpt fd.ftype then req else req ++ [fd.fname]), p.2) by
          simp [fieldStep, hr]] at h
        rw [show fieldStep rT' (some (props, req, tb)) fd =
              some (props ++ [(fd.fname, p.1)],
                (if isOpt fd.ftype then req else req ++ [fd.fname]), p.2) by
          simp [fieldStep, hT tb fd.ftype p hr]]
        exact ih _ r h

/-- Fuel monotonicity: a successful resolution stays the same when more fuel
is supplied — the recursion has bottomed out. -/
theorem resolveT_mono (env : TypeEnv) (ns : String) :
    ∀ (fuel : Nat) (tb : Table) (t : TypeExpr) (r : Schema × Table),
      resolveT env ns fuel tb t = some r → resolveT env ns (fuel + 1) tb t = some r := by
  intro fuel
  induction fuel with
  | zero => intro tb t r h; exact absurd h (by simp [resolveT])
  | succ fuel ih =>
    intro tb t r h
    cases t with
    | prim k => exact h
    | ptr t => exact ih tb t r h
    | slice t =>
      simp only [resolveT] at h ⊢
      cases hr : resolveT env ns fuel tb t with
      | none => rw [hr] at h; exact absurd h (by simp)
      | some p => rw [hr] at h; rw [ih tb t p hr]; exact h
    | smap t =>
      simp only [resolveT] at h ⊢
      cases hr : resolveT env ns fuel tb t with
      | none => rw [hr] at h; exact absurd h (by simp)
      | some p => rw [hr] at h; rw [ih tb t p hr]; exact h
    | named m =>
      simp only [resolveT] at h ⊢
      split at h
      · exact h
      · split at h
        · exact h
        · rename_i fields hev
          split at h
          · exact absurd h (by simp)
          · rename_i props req tb2 hf
            rw [foldl_fieldStep_mono (resolveT env ns fuel) (resolveT env ns (fuel + 1))
              ih fields _ _ hf]
            exact h

theorem resolveT_mono_le (env : TypeEnv) (ns : String) (f1 f2 : Nat) (tb : Table)
    (t : TypeExpr) (r : Schema × Table) (hle : f1 ≤ f2)
    (h : resolveT env ns f1 tb t = some r) : resolveT env ns f2 tb t = some r := by
  induction f2, hle using Nat.le_induction with
  | base => exact h
  | succ f2 hle ih => exact resolveT_mono env ns f2 tb t r ih

theorem foldl_fieldStep_keyCount (rT : Table → TypeExpr → Option (Schema × Table))
    (hT : ∀ tb t r, rT tb t = some r →
      ∀ k e, lookupA tb k = some e → lookupA r.2 k = some e ∧ keyCount r.2 k = keyCount tb k) :
    ∀ (fs : List FieldDecl) (props : List (String × Schema)) (req : List String) (tb : Table)
      (r : List (String × Schema) × List String × Table),
      fs.foldl (fieldStep rT) (some (props, req, tb)) = some r →
      ∀ k e, lookupA tb k = some e →
        lookupA r.2.2 k = some e ∧ keyCount r.2.2 k = keyCount tb k := by
  intro fs
  induction fs with
  | nil =>
    intro props req tb r h k e he
    simp only [List.foldl_nil, Option.some.injEq] at h
    subst h
    exact ⟨he, rfl⟩
  | cons fd fs ih =>
    intro props req tb r h k e he
    simp only [List.foldl_cons] at h
    cases hr : rT tb fd.ftype with
    | none =>
      rw [show fieldStep rT (some (props, req, tb)) fd = none by simp [fieldStep, hr]] at h
      rw [foldl_fieldStep_none] at h
      exact absurd h (by simp)
    | some p =>
      rw [show fieldStep rT (some (props, req, tb)) fd =
            some (props ++ [(fd.fname, p.1)],
              (if isOpt fd.ftype then req else req ++ [fd.fname]), p.2) by
        simp [fieldStep, hr]] at h
      obtain ⟨hk1, hk2⟩ := hT tb fd.ftype p hr k e he
      obtain ⟨hk1', hk2'⟩ := ih _ _ _ _ h k e hk1
      exact ⟨hk1', by rw [hk2', hk2]⟩

/-- Pre-existing entries are preserved verbatim together with their key
multiplicity: the registry never duplicates nor removes an existing key. -/
theorem resolveT_keyCount (env : TypeEnv) (ns : String) :
    ∀ (fuel : Nat) (tb : Table) (t : TypeExpr) (r : Schema × Table),
      resolveT env ns fuel tb t = some r →
      ∀ k e, lookupA tb k = some e →
        lookupA r.2 k = some e ∧ keyCount r.2 k = keyCount tb k := by
  intro fuel
  induction fuel with
  | zero => intro tb t r h; exact absurd h (by simp [resolveT])
  | succ fuel ih =>
    intro tb t r h k e he
    cases t with
    | prim k' =>
      simp only [resolveT, Option.some.injEq] at h
      subst h
      exact ⟨he, rfl⟩
    | ptr t => exact ih tb t r h k e he
    | slice t =>
      simp only [resolveT] at h
      cases hr : resolveT env ns fuel tb t with
      | none => rw [hr] at h; exact absurd h (by simp)
      | some p =>
        rw [hr] at h
        simp only [Option.some.injEq] at h
        subst h
        exact ih tb t p hr k e he
    | smap t =>
      simp only [resolveT] at h
      cases hr : resolveT env ns fuel tb t with
      | none => rw [hr] at h; exact absurd h (by simp)
      | some p =>
        rw [hr] at h
        simp only [Option.some.injEq] at h
        subst h
        exact ih tb t p hr k e he
    | named m =>
      simp only [resolveT] at h
      split at h
      · rename_i em hm
        simp only [Option.some.injEq] at h
        subst h
        exact ⟨he, rfl⟩
      · rename_i hm
        split at h
        · exact absurd h (by simp)
        · rename_i fields hev
          have hkm : k ≠ m := by
            intro hc; subst hc; rw [he] at hm; exact absurd hm (by simp)
          split at h
          · exact absurd h (by simp)
          · rename_i props req tb2 hf
            simp only [Option.some.injEq] at h
            have he1 : lookupA (insertA tb m ⟨m, true, none⟩) k = some e := by
              rw [lookupA_insertA_ne tb m k _ hkm]; exact he
            have hc1 : keyCount (insertA tb m ⟨m, true, none⟩) k = keyCount tb k :=
              keyCount_insertA_ne tb m k _ hkm
            obtain ⟨he2, hc2⟩ := foldl_fieldStep_keyCount (resolveT env ns fuel) ih fields
              [] [] _ (props, req, tb2) hf k e he1
            subst h
            refine ⟨?_, ?_⟩
            · simpa [lookupA_insertA_ne tb2 m k _ hkm] using he2
            · simp only
              rw [keyCount_insertA_ne tb2 m k _ hkm, hc2, hc1]

theorem depthT_pos (t : TypeExpr) : 1 ≤ depthT t := by
  cases t <;> simp [depthT]

theorem fieldsDepth_of_mem (fs : List FieldDecl) (fd : FieldDecl) (h : fd ∈ fs) :
    depthT fd.ftype ≤ fieldsDepth fs := by
  induction fs with
  | nil => exact absurd h (by simp)
  | cons fd' fs ih =>
    rcases List.mem_cons.1 h with h0 | h0
    · subst h0
      simp [fieldsDepth]
    · exact le_trans (ih h0) (by simp [fieldsDepth])

theorem envDepth_of_mem (env : TypeEnv) (m : String) (fs : List FieldDecl)
    (h : (m, fs) ∈ env) : fieldsDepth fs ≤ envDepth env := by
  induction env with
  | nil => exact absurd h (by simp)
  | cons p env ih =>
    rcases List.mem_cons.1 h with h0 | h0
    · rw [← h0]
      simp [envDepth]
    · exact le_trans (ih h0) (by simp [envDepth])

theorem closedEnv_field (env : TypeEnv) (m : String) (fs : List FieldDecl) (fd : FieldDecl)
    (hc : closedEnv env = true) (hm : (m, fs) ∈ env) (hf : fd ∈ fs) :
    declaredIn env fd.ftype = true := by
  rw [closedEnv, List.all_eq_true] at hc
  have := hc (m, fs) hm
  rw [List.all_eq_true] at this
  exact this fd hf

theorem foldl_fieldStep_total (env : TypeEnv) (ns : String) (g u1 : Nat)
    (htot : ∀ tb t, declaredIn env t = true →
      depthT t + undone env tb * (envDepth env + 1) ≤ g →
      ∃ r, resolveT env ns g tb t = some r) :
    ∀ (fs : List FieldDecl) (props : List (String × Schema)) (req : List String) (tb : Table),
      (∀ fd ∈ fs, declaredIn env fd.ftype = true) →
      (∀ fd ∈ fs, depthT fd.ftype + u1 * (envDepth env + 1) ≤ g) →
      undone env tb ≤ u1 →
      ∃ r, fs.foldl (fieldStep (resolveT env ns g)) (some (props, req, tb)) = some r ∧
        undone env r.2.2 ≤ u1 := by
  intro fs
  induction fs with
  | nil =>
    intro props req tb _ _ hu
    exact ⟨(props, req, tb), rfl, hu⟩
  | cons fd fs ih =>
    intro props req tb hdecl hbound hu
    have hb' : depthT fd.ftype + undone env tb * (envDepth env + 1) ≤ g := by
      have h1 : undone env tb * (envDepth env + 1) ≤ u1 * (envDepth env + 1) :=
        Nat.mul_le_mul_right _ hu
      have h2 := hbound fd (List.mem_cons_self fd fs)
      omega
    obtain ⟨⟨s, tb'⟩, hr⟩ := htot tb fd.ftype (hdecl fd (List.mem_cons_self fd fs)) hb'
    have hu' : undone env tb' ≤ u1 :=
      le_trans (undone_keep_mono env tb tb'
        (fun k e he => resolveT_keep env ns g tb fd.ftype (s, tb') hr k e he)) hu
    obtain ⟨r, hfold, hur⟩ := ih (props ++ [(fd.fname, s)])
      (if isOpt fd.ftype then req else req ++ [fd.fname]) tb'
      (fun fd' hf => hdecl fd' (List.mem_cons_of_mem _ hf))
      (fun fd' hf => hbound fd' (List.mem_cons_of_mem _ hf)) hu'
    refine ⟨r, ?_, hur⟩
    rw [List.foldl_cons, show fieldStep (resolveT env ns g) (some (props, req, tb)) fd =
      some (props ++ [(fd.fname, s)],
        (if isOpt fd.ftype then req else req ++ [fd.fname]), tb') by simp [fieldStep, hr]]
    exact hfold

/-- Totality of resolution over a closed type environment: fuel
`depthT t + undone · (envDepth + 1)` always suffices, a bound independent of
any recursion through the type graph — self-references and mutual recursion
included — because synthesis of a named type starts at most once per type. -/
theorem resolveT_total (env : TypeEnv) (ns : String) (hc : closedEnv env = true) :
    ∀ (fuel : Nat) (tb : Table) (t : TypeExpr),
      declaredIn env t = true →
      depthT t + undone env tb * (envDepth env + 1) ≤ fuel →
      ∃ r, resolveT env ns fuel tb t = some r := by
  intro fuel
  induction fuel with
  | zero =>
    intro tb t _ hb
    have := depthT_pos t
    omega
  | succ fuel ih =>
    intro tb t hd hb
    cases t with
    | prim k => exact ⟨(.scalar k, tb), rfl⟩
    | ptr t =>
      have hb' : depthT t + undone env tb * (envDepth env + 1) ≤ fuel := by
        simp only [depthT] at hb
        omega
      obtain ⟨r, hr⟩ := ih tb t hd hb'
      exact ⟨r, hr⟩
    | slice t =>
      have hb' : depthT t + undone env tb * (envDepth env + 1) ≤ fuel := by
        simp only [depthT] at hb
        omega
      obtain ⟨⟨s, tb'⟩, hr⟩ := ih tb t hd hb'
      exact ⟨(.arr s, tb'), by simp [resolveT, hr]⟩
    | smap t =>
      have hb' : depthT t + undone env tb * (envDepth env + 1) ≤ fuel := by
        simp only [depthT] at hb
        omega
      obtain ⟨⟨s, tb'⟩, hr⟩ := ih tb t hd hb'
      exact ⟨(.mapObj s, tb'), by simp [resolveT, hr]⟩
    | named m =>
      cases hm : lookupA tb m with
      | some e => exact ⟨(.ref (mkTok ns e.rname), tb), by simp [resolveT, hm]⟩
      | none =>
        obtain ⟨fs, henv⟩ : ∃ fs, lookupA env m = some fs := by
          have hds : (lookupA env m).isSome = true := hd
          exact Option.isSome_iff_exists.1 hds
        have hmem := lookupA_mem env m fs henv
        have hu1 : undone env (insertA tb m ⟨m, true, none⟩) < undone env tb :=
          undone_insert_lt env tb m fs _ henv hm
        have hfd : ∀ fd ∈ fs, declaredIn env fd.ftype = true :=
          fun fd hf => closedEnv_field env m fs fd hc hmem hf
        have huE : undone env tb * (envDepth env + 1) ≤ fuel := by
          simp only [depthT] at hb
          omega
        have hfb : ∀ fd ∈ fs,
            depthT fd.ftype + (undone env tb - 1) * (envDepth env + 1) ≤ fuel := by
          intro fd hf
          have hde : depthT fd.ftype ≤ envDepth env :=
            le_trans (fieldsDepth_of_mem fs fd hf) (envDepth_of_mem env m fs hmem)
          have hsub : (undone env tb - 1) * (envDepth env + 1) =
              undone env tb * (envDepth env + 1) - (envDepth env + 1) :=
            Nat.sub_one_mul _ _
          have hEle : envDepth env + 1 ≤ undone env tb * (envDepth env + 1) :=
            Nat.le_mul_of_pos_left _ (by omega)
          omega
        obtain ⟨⟨props, req, tb2⟩, hfold, _⟩ := foldl_fieldStep_total env ns fuel
          (undone env tb - 1) (fun tb' t' hd' hb' => ih tb' t' hd' hb') fs [] []
          (insertA tb m ⟨m, true, none⟩) hfd hfb (by omega)
        refine ⟨(.ref (mkTok ns m), insertA tb2 m ⟨m, false, some (.obj props req)⟩), ?_⟩
        show (match lookupA tb m with
          | some e => some (Schema.ref (mkTok ns e.rname), tb)
          | none =>
            match lookupA env m with
            | none => none
            | some fields =>
              match fields.foldl (fieldStep (resolveT env ns fuel))
                  (some ([], [], insertA tb m ⟨m, true, none⟩)) with
              | none => none
              | some (props, req, tb2) =>
                some (Schema.ref (mkTok ns m),
                  insertA tb2 m ⟨m, false, some (.obj props req)⟩)) = _
        rw [hm, henv]
        show (match fs.foldl (fieldStep (resolveT env ns fuel))
            (some ([], [], insertA tb m ⟨m, true, none⟩)) with
          | none => none
          | some (props, req, tb2) =>
            some (Schema.ref (mkTok ns m),
              insertA tb2 m ⟨m, false, some (.obj props req)⟩)) = _
        rw [hfold]

theorem foldl_fieldStep_props (rT : Table → TypeExpr → Option (Schema × Table)) :
    ∀ (fs : List FieldDecl) (props : List (String × Schema)) (req : List String) (tb : Table)
      (r : List (String × Schema) × List String × Table),
      fs.foldl (fieldStep rT) (some (props, req, tb)) = some r →
      ∃ rest, r.1 = props ++ rest := by
  intro fs
  induction fs with
  | nil =>
    intro props req tb r h
    simp only [List.foldl_nil, Option.some.injEq] at h
    subst h
    exact ⟨[], by simp⟩
  | cons fd fs ih =>
    intro props req tb r h
    simp only [List.foldl_cons] at h
    cases hr : rT tb fd.ftype with
    | none =>
      rw [show fieldStep rT (some (props, req, tb)) fd = none by simp [fieldStep, hr]] at h
      rw [foldl_fieldStep_none] at h
      exact absurd h (by simp)
    | some p =>
      rw [show fieldStep rT (some (props, req, tb)) fd =
            some (props ++ [(fd.fname, p.1)],
              (if isOpt fd.ftype then req else req ++ [fd.fname]), p.2) by
        simp [fieldStep, hr]] at h
      obtain ⟨rest, hrest⟩ := ih _ _ _ r h
      exact ⟨(fd.fname, p.1) :: rest, by rw [hrest, List.append_assoc]; rfl⟩

/-- Every field of the list is resolved at some intermediate table that still
contains every entry present when the fold started, and its schema lands in
the synthesized property list. -/
theorem foldl_fieldStep_mem (rT : Table → TypeExpr → Option (Schema × Table))
    (hkeep : ∀ tb t r, rT tb t = some r →
      ∀ k e, lookupA tb k = some e → lookupA r.2 k = some e) :
    ∀ (fs : List FieldDecl) (props : List (String × Schema)) (req : List String) (tb : Table)
      (r : List (String × Schema) × List String × Table),
      fs.foldl (fieldStep rT) (some (props, req, tb)) = some r →
      ∀ fd ∈ fs, ∃ (s : Schema) (tbm tbm' : Table),
        (∀ k e, lookupA tb k = some e → lookupA tbm k = some e) ∧
        rT tbm fd.ftype = some (s, tbm') ∧ (fd.fname, s) ∈ r.1 := by
  intro fs
  induction fs with
  | nil => intro props req tb r h fd hf; exact absurd hf (by simp)
  | cons fd0 fs ih =>
    intro props req tb r h fd hf
    simp only [List.foldl_cons] at h
    cases hr : rT tb fd0.ftype with
    | none =>
      rw [show fieldStep rT (some (props, req, tb)) fd0 = none by simp [fieldStep, hr]] at h
      rw [foldl_fieldStep_none] at h
      exact absurd h (by simp)
    | some p =>
      rw [show fieldStep rT (some (props, req, tb)) fd0 =
            some (props ++ [(fd0.fname, p.1)],
              (if isOpt fd0.ftype then req else req ++ [fd0.fname]), p.2) by
        simp [fieldStep, hr]] at h
      rcases List.mem_cons.1 hf with h0 | h0
      · subst h0
        obtain ⟨rest, hrest⟩ := foldl_fieldStep_props rT fs _ _ _ r h
        refine ⟨p.1, tb, p.2, fun k e he => he, hr, ?_⟩
        rw [hrest]
        simp
      · obtain ⟨s, tbm, tbm', hsub, hres, hmem⟩ := ih _ _ _ r h fd h0
        exact ⟨s, tbm, tbm',
          fun k e he => hsub k e (hkeep tb fd0.ftype p hr k e he), hres, hmem⟩

theorem mentionsProps_of_mem (props : List (String × Schema)) (tok f : String) (s : Schema)
    (hmem : (f, s) ∈ props) (hs : mentionsTok s tok = true) :
    mentionsProps props tok = true := by
  induction props with
  | nil => exact absurd hmem (by simp)
  | cons p ps ih =>
    rcases List.mem_cons.1 hmem with h0 | h0
    · rw [← h0]
      simp [mentionsProps, hs]
    · simp [mentionsProps, ih h0]

/-- A successful first resolution of a struct with a pointer-to-itself or
slice-of-itself field stores a node that mentions the struct's own reference
token: the self field is resolved while the entry is `pending`, so it
short-circuits to the forward reference. -/
theorem resolveT_self_mentions (env : TypeEnv) (ns : String) (fuel : Nat) (tb : Table)
    (n f : String) (byPtr : Bool) (fields : List FieldDecl) (r : Schema × Table)
    (h0 : lookupA tb n = none)
    (henv : lookupA env n = some fields)
    (hmem : (⟨f, selfWrap byPtr n⟩ : FieldDecl) ∈ fields)
    (h : resolveT env ns fuel tb (.named n) = some r) :
    ∃ node, lookupA r.2 n = some ⟨n, false, some node⟩ ∧
      mentionsTok node (mkTok ns n) = true := by
  cases fuel with
  | zero => exact absurd h (by simp [resolveT])
  | succ fuel =>
    simp only [resolveT, h0] at h
    split at h
    · exact absurd h (by simp)
    · rename_i fields' hev
      rw [henv] at hev
      simp only [Option.some.injEq] at hev
      subst hev
      split at h
      · exact absurd h (by simp)
      · rename_i props req tb2 hf
        simp only [Option.some.injEq] at h
        obtain ⟨s, tbm, tbm', hsub, hres, hmemp⟩ := foldl_fieldStep_mem
          (resolveT env ns fuel) (resolveT_keep env ns fuel) fields [] [] _
          (props, req, tb2) hf ⟨f, selfWrap byPtr n⟩ hmem
        have hpend : lookupA tbm n = some ⟨n, true, none⟩ :=
          hsub n _ (lookupA_insertA_self tb n ⟨n, true, none⟩)
        have hs : mentionsTok s (mkTok ns n) = true := by
          cases byPtr with
          | true =>
            cases fuel with
            | zero => exact absurd hres (by simp [selfWrap, resolveT])
            | succ g =>
              have hres' : resolveT env ns g tbm (.named n) = some (s, tbm') := hres
              cases g with
              | zero => exact absurd hres' (by simp [resolveT])
              | succ g' =>
                rw [resolveT_hit env ns g' tbm n ⟨n, true, none⟩ hpend] at hres'
                simp only [Option.some.injEq, Prod.mk.injEq] at hres'
                rw [← hres'.1]
                simp [mentionsTok, mkTok]
          | false =>
            cases fuel with
            | zero => exact absurd hres (by simp [selfWrap, resolveT])
            | succ g =>
              have hres' : (match resolveT env ns g tbm (.named n) with
                | none => none
                | some (s, tb') => some (Schema.arr s, tb')) = some (s, tbm') := hres
              cases g with
              | zero => exact absurd hres' (by simp [resolveT])
              | succ g' =>
                rw [resolveT_hit env ns g' tbm n ⟨n, true, none⟩ hpend] at hres'
                simp only [Option.some.injEq, Prod.mk.injEq] at hres'
                rw [← hres'.1]
                simp [mentionsTok, mkTok]
        refine ⟨.obj props req, ?_, ?_⟩
        · rw [← h]
          simp [lookupA_insertA_self]
        · simp only [mentionsTok]
          exact mentionsProps_of_mem props _ f s hmemp hs

/-- A successful first resolution of an absent named type leaves exactly one
table entry under that type's identity. -/
theorem resolveT_creates_once (env : TypeEnv) (ns : String) (fuel : Nat) (tb : Table)
    (n : String) (r : Schema × Table) (h0 : lookupA tb n = none)
    (h : resolveT env ns fuel tb (.named n) = some r) :
    keyCount r.2 n = 1 := by
  cases fuel with
  | zero => exact absurd h (by simp [resolveT])
  | succ fuel =>
    simp only [resolveT, h0] at h
    split at h
    · exact absurd h (by simp)
    · rename_i fields hev
      split at h
      · exact absurd h (by simp)
      · rename_i props req tb2 hf
        simp only [Option.some.injEq] at h
        have h1 : keyCount (insertA tb n ⟨n, true, none⟩) n = 1 :=
          keyCount_insertA_absent tb n _ h0
        obtain ⟨hl2, hc2⟩ := foldl_fieldStep_keyCount (resolveT env ns fuel)
          (resolveT_keyCount env ns fuel) fields [] [] _ (props, req, tb2) hf n
          ⟨n, true, none⟩ (lookupA_insertA_self tb n ⟨n, true, none⟩)
        rw [← h]
        simp only
        rw [keyCount_insertA_present tb2 n _ _ hl2, hc2, h1]

/-- **C2**: For every self-referential type — a struct, declared in a closed
type environment, one of whose fields is pointer-to-itself (`byPtr = true`)
or slice-of-itself (`byPtr = false`), the remaining fields being arbitrary —
`Resolve` terminates without infinite recursion: there is a fuel threshold
`F` past which the result exists and no longer changes (the recursion has
bottomed out, because the second encounter of the type, whose entry is then
`pending`, returns a forward reference token instead of re-entering
synthesis).  The resulting table contains exactly one named definition for
that type (`keyCount = 1`), and that definition contains a self-reference
(its node mentions the type's own token). -/
theorem resolve_self_ref (env : TypeEnv) (ns : String) (n f : String) (byPtr : Bool)
    (fields : List FieldDecl) (tb0 : Table)
    (hc : closedEnv env = true)
    (henv : lookupA env n = some fields)
    (hmem : (⟨f, selfWrap byPtr n⟩ : FieldDecl) ∈ fields)
    (htb : lookupA tb0 n = none) :
    ∃ (F : Nat) (node : Schema) (tb' : Table),
      (∀ fuel, F ≤ fuel →
        resolveT env ns fuel tb0 (.named n) = some (.ref (mkTok ns n), tb')) ∧
      lookupA tb' n = some ⟨n, false, some node⟩ ∧
      keyCount tb' n = 1 ∧
      mentionsTok node (mkTok ns n) = true := by
  have hd : declaredIn env (.named n) = true := by
    simp [declaredIn, henv]
  obtain ⟨⟨r1, r2⟩, hr⟩ := resolveT_total env ns hc
    (1 + undone env tb0 * (envDepth env + 1)) tb0 (.named n) hd (by simp [depthT])
  obtain ⟨node, hl, hment⟩ := resolveT_self_mentions env ns _ tb0 n f byPtr fields
    (r1, r2) htb henv hmem hr
  obtain ⟨node', hr1, _⟩ := resolveT_creates env ns _ tb0 n (r1, r2) htb hr
  have hcount := resolveT_creates_once env ns _ tb0 n (r1, r2) htb hr
  simp only at hr1 hl hcount
  refine ⟨1 + undone env tb0 * (envDepth env + 1), node, r2, ?_, hl, hcount, hment⟩
  intro fuel hfuel
  have hmore := resolveT_mono_le env ns _ fuel tb0 (.named n) (r1, r2) hfuel hr
  rw [hmore, hr1]

/-- Witness for C2 at the spec §8 struct `{ID int; Name string;
Tags []string; Parent *Self}` — including the non-primitive `tags` field —
resolved from the empty table. -/
theorem resolve_self_ref_witness :
    (closedEnv envUser = true) ∧
    (lookupA envUser "User" =
      some [⟨"id", .prim .pInt⟩, ⟨"name", .prim .pString⟩,
        ⟨"tags", .slice (.prim .pString)⟩, ⟨"parent", .ptr (.named "User")⟩]) ∧
    ((⟨"parent", selfWrap true "User"⟩ : FieldDecl) ∈
      [(⟨"id", .prim .pInt⟩ : FieldDecl), ⟨"name", .prim .pString⟩,
        ⟨"tags", .slice (.prim .pString)⟩, ⟨"parent", .ptr (.named "User")⟩]) ∧
    (lookupA ([] : Table) "User" = none) ∧
    (∃ (F : Nat) (node : Schema) (tb' : Table),
      (∀ fuel, F ≤ fuel →
        resolveT envUser "#/components/schemas/" fuel [] (.named "User") =
          some (.ref (mkTok "#/components/schemas/" "User"), tb')) ∧
      lookupA tb' "User" = some ⟨"User", false, some node⟩ ∧
      keyCount tb' "User" = 1 ∧
      mentionsTok node (mkTok "#/components/schemas/" "User") = true) :=
  ⟨by decide, rfl, by decide, rfl,
   resolve_self_ref envUser "#/components/schemas/" "User" "parent" true
     [⟨"id", .prim .pInt⟩, ⟨"name", .prim .pString⟩,
       ⟨"tags", .slice (.prim .pString)⟩, ⟨"parent", .ptr (.named "User")⟩]
     [] (by decide) rfl (by decide) rfl⟩

/-! ## C3: Example `Value` / `ExternalValue` are mutually exclusive -/

/-- **C3**: For every `ExampleBuilder`, setting both a literal value and an
external value is rejected at the point of conflict, in both orders: after a
successful `ExternalValue(uri)` with `uri` non-empty, `Value(v)` with `v`
non-nil fails (and the recorded value is still the old one); after a
successful `Value(v)` with `v` non-nil, `ExternalValue(uri)` with `uri`
non-empty fails (and the recorded external value is still the old one).  The
failing call returns no updated example, so its argument is never recorded. -/
theorem example_value_exclusive (e₁ e₂ : Example) (v : Option GoVal) (uri : String)
    (hv : v ≠ none) (hu : uri ≠ "") :
    (∀ e', exampleExternalValue e₁ uri = .ok e' →
      e'.externalValue = uri ∧ e'.value = e₁.value ∧
      exampleValue e' v =
        .error "Value and ExternalValue cannot both be set on example, pick one") ∧
    (∀ e', exampleValue e₂ v = .ok e' →
      e'.value = v ∧ e'.externalValue = e₂.externalValue ∧
      exampleExternalValue e' uri =
        .error "Value and ExternalValue cannot both be set on example, pick one") := by
  constructor
  · intro e' h
    by_cases hc : e₁.value = none
    · simp [exampleExternalValue, hc] at h
      subst h
      exact ⟨rfl, by simp [hc], by simp [exampleValue, hu]⟩
    · simp [exampleExternalValue, hc] at h
  · intro e' h
    by_cases hc : e₂.externalValue = ""
    · simp [exampleValue, hc] at h
      subst h
      exact ⟨rfl, by simp [hc], by simp [exampleExternalValue, hv]⟩
    · simp [exampleValue, hc] at h

/-- Witness for C3 at a concrete example object. -/
theorem example_value_exclusive_witness :
    (some (GoVal.vInt 3) ≠ (none : Option GoVal)) ∧ ("https://example.com/ex.json" ≠ "") ∧
    ((∀ e', exampleExternalValue {} "https://example.com/ex.json" = .ok e' →
      e'.externalValue = "https://example.com/ex.json" ∧
      e'.value = Example.value {} ∧
      exampleValue e' (some (GoVal.vInt 3)) =
        .error "Value and ExternalValue cannot both be set on example, pick one") ∧
    (∀ e', exampleValue {} (some (GoVal.vInt 3)) = .ok e' →
      e'.value = some (GoVal.vInt 3) ∧ e'.externalValue = Example.externalValue {} ∧
      exampleExternalValue e' "https://example.com/ex.json" =
        .error "Value and ExternalValue cannot both be set on example, pick one")) :=
  ⟨by decide, by decide,
   example_value_exclusive {} {} (some (GoVal.vInt 3)) "https://example.com/ex.json"
     (by decide) (by decide)⟩

/-! ## C4: License `Identifier` / `URL` are mutually exclusive -/

/-- **C4**: For every `LicenseBuilder`, the mutually exclusive license pair is
rejected at build time rather than silently merged: `Identifier(id)` when the
URL is already non-empty fails, `URL(u)` when the Identifier is already
non-empty fails, and in both orders the license record keeps only the
first-set member of the pair (the failed second call records nothing, and the
successful first call implies the other member was empty and stays empty). -/
theorem license_exclusive (lic₁ lic₂ : License) (identifier url : String)
    (hi : identifier ≠ "") (hu : url ≠ "") :
    (∀ l', licenseURL lic₁ url = .ok l' →
      l'.url = url ∧ l'.identifier = "" ∧
      licenseIdentifier l' identifier =
        .error "license url and identifier cannot both be set, set only one of them") ∧
    (∀ l', licenseIdentifier lic₂ identifier = .ok l' →
      l'.identifier = identifier ∧ l'.url = "" ∧
      licenseURL l' url =
        .error "license url and identifier cannot both be set, set only one of them") := by
  constructor
  · intro l' h
    by_cases hc : lic₁.identifier = ""
    · simp [licenseURL, hc] at h
      subst h
      exact ⟨rfl, rfl, by simp [licenseIdentifier, hu]⟩
    · simp [licenseURL, hc] at h
  · intro l' h
    by_cases hc : lic₂.url = ""
    · simp [licenseIdentifier, hc] at h
      subst h
      exact ⟨rfl, rfl, by simp [licenseURL, hi]⟩
    · simp [licenseIdentifier, hc] at h

/-- Witness for C4 at a concrete license object. -/
theorem license_exclusive_witness :
    ("Apache-2.0" ≠ "") ∧ ("https://example.com/license" ≠ "") ∧
    ((∀ l', licenseURL {} "https://example.com/license" = .ok l' →
      l'.url = "https://example.com/license" ∧ l'.identifier = "" ∧
      licenseIdentifier l' "Apache-2.0" =
        .error "license url and identifier cannot both be set, set only one of them") ∧
    (∀ l', licenseIdentifier {} "Apache-2.0" = .ok l' →
      l'.identifier = "Apache-2.0" ∧ l'.url = "" ∧
      licenseURL l' "https://example.com/license" =
        .error "license url and identifier cannot both be set, set only one of them")) :=
  ⟨by decide, by decide,
   license_exclusive {} {} "Apache-2.0" "https://example.com/license" (by decide) (by decide)⟩

/-! ## C9: the exported sentinels are the kind-wise zero values -/

/-- **C9**: For every primitive kind the package exports a pre-built basic
value sentinel equal to that kind's zero value: `IntType = int(0)`,
`StringType = ""`, `BoolType = false`, `Float64Type = float64(0)`, and
likewise for every sized integer, unsigned, float, complex, byte and rune
marker (with `byte`/`rune` being Go aliases of `uint8`/`int32`), so a scalar
body can be declared by passing the sentinel rather than constructing a
value. -/
theorem sentinels_are_zero_values :
    IntType = zeroOf .kInt ∧ Int8Type = zeroOf .kInt8 ∧ Int16Type = zeroOf .kInt16 ∧
    Int32Type = zeroOf .kInt32 ∧ Int64Type = zeroOf .kInt64 ∧
    UintType = zeroOf .kUint ∧ Uint8Type = zeroOf .kUint8 ∧ Uint16Type = zeroOf .kUint16 ∧
    Uint32Type = zeroOf .kUint32 ∧ Uint64Type = zeroOf .kUint64 ∧
    UintPtrType = zeroOf .kUintPtr ∧
    Float32Type = zeroOf .kFloat32 ∧ Float64Type = zeroOf .kFloat64 ∧
    Complex64Type = zeroOf .kComplex64 ∧ Complex128Type = zeroOf .kComplex128 ∧
    StringType = zeroOf .kString ∧ BoolType = zeroOf .kBool ∧
    ByteType = zeroOf .kByte ∧ RuneType = zeroOf .kRune := by
  decide

/-! ## C7: `OpenID` stores its scheme under the key `"ApiKeyAuth"` (bug) -/

/-- **C7** fails on the code: `Builder.OpenID(url)` stores the
`openIdConnect` scheme under the map key `"ApiKeyAuth"` (builder.go line
190), not `"OpenID"`: after `ApiKeyAuth("X-Api-Key")` followed by
`OpenID(url)`, the map has no `"OpenID"` entry at all and the previously
registered API-key scheme has been overwritten by the OpenID scheme. -/
theorem openID_overwrites_apiKeyAuth :
    lookupA (apiKeyAuth [] "X-Api-Key") "ApiKeyAuth" =
      some { type := "apiKey", inn := "header", name := "X-Api-Key" } ∧
    lookupA (openID (apiKeyAuth [] "X-Api-Key") "https://example.com/oidc") "OpenID" = none ∧
    lookupA (openID (apiKeyAuth [] "X-Api-Key") "https://example.com/oidc") "ApiKeyAuth" =
      some { type := "openIdConnect", openIdConnectURL := "https://example.com/oidc" } := by
  decide

/-! ## C6: `ClientCredentials` returns a builder on the Password flow (bug) -/

/-- **C6** fails on the code: the `OAuthFlowBuilder` returned by
`OAuth2Builder.ClientCredentials()` carries `flow: ob.flows.Password`
(builder.go line 239).  On a fresh `OAuth2()` builder the Password pointer is
nil, so `ClientCredentials().TokenURL(u)` dereferences a nil pointer instead
of setting the ClientCredentials flow's token URL; and when a Password flow
exists, the call writes the token URL into the Password flow cell while the
freshly allocated ClientCredentials cell keeps an empty token URL. -/
theorem clientCredentials_aliases_password :
    (oauthClientCredentials {}).1.flows.clientCredentials = some 0 ∧
    (oauthClientCredentials {}).2.flowPtr = none ∧
    flowTokenURL (oauthClientCredentials {}).1 (oauthClientCredentials {}).2
        "https://tok.example.com" =
      .error "runtime error: invalid memory address or nil pointer dereference" ∧
    (oauthClientCredentials (oauthPassword {}).1).1.flows.clientCredentials = some 1 ∧
    (oauthClientCredentials (oauthPassword {}).1).2.flowPtr = some 0 ∧
    flowTokenURL (oauthClientCredentials (oauthPassword {}).1).1
        (oauthClientCredentials (oauthPassword {}).1).2 "https://tok.example.com" =
      .ok { flows := { password := some 0, clientCredentials := some 1 },
            heap := [{ tokenURL := "https://tok.example.com" }, {}] } := by
  refine ⟨rfl, rfl, rfl, rfl, rfl, rfl⟩

/-! ## C5: `Header` and `Link` write into nil maps (bug) -/

/-- **C5** fails on the code: `OperationBuilder.Response(status)` inserts a
fresh `&Response{}` whose `Headers` and `Links` maps are nil, and
`ResponseBuilder.Header` / `ResponseBuilder.Link` assign into those maps
without initializing them, which is a Go runtime panic (`assignment to entry
in nil map`) rather than a successful store. -/
theorem response_header_link_nil_map :
    (registerOp { method := "POST", path := "/login" } =
      .ok { method := "POST", path := "/login", responses := some [] }) ∧
    (opResponse { method := "POST", path := "/login", responses := some [] } 200 =
      .ok ({ method := "POST", path := "/login", responses := some [("200", {})] }, {})) ∧
    (Response.headers {} = none ∧ Response.links {} = none) ∧
    (respHeader [] "#/components/schemas/" 3 [] {} "X-Rate-Limit-Remaining" (.prim .pInt) =
      .error "assignment to entry in nil map") ∧
    (respLink {} "GetUserByUserId" = .error "assignment to entry in nil map") := by
  refine ⟨rfl, rfl, ⟨rfl, rfl⟩, rfl, rfl⟩

/-! ## C8: builders from separate `New` calls never share mutable state -/

theorem updF_self {α : Type} (f : Nat → α) (a : Nat) (v : α) : updF f a v a = v := by
  simp [updF]

theorem updF_ne {α : Type} (f : Nat → α) (x a : Nat) (v : α) (h : x ≠ a) :
    updF f a v x = f x := by
  simp [updF, h]

/-- Every builder step keeps the session's registry and scheme addresses. -/
theorem stepB_addrs (env : TypeEnv) (w : World) (b : BuilderB) (op : BOp) :
    (stepB env w b op).2.regAddr = b.regAddr ∧ (stepB env w b op).2.secAddr = b.secAddr := by
  cases op with
  | register method path =>
    simp only [stepB]
    split <;> simp
  | security scheme params => simp [stepB]
  | bearer => simp [stepB]
  | resolveBody fuel t =>
    simp only [stepB]
    split
    · simp
    · simp

/-- Frame property of one builder step: a world cell that is neither the
session's registry cell nor its scheme-map cell is untouched. -/
theorem stepB_frame (env : TypeEnv) (w : World) (b : BuilderB) (op : BOp) (a : Nat)
    (h1 : a ≠ b.regAddr) (h2 : a ≠ b.secAddr) :
    (stepB env w b op).1.regs a = w.regs a ∧ (stepB env w b op).1.secs a = w.secs a := by
  cases op with
  | register method path =>
    simp only [stepB]
    split <;> simp
  | security scheme params => simp [stepB]
  | bearer => simp [stepB, updF_ne _ _ _ _ h2]
  | resolveBody fuel t =>
    simp only [stepB]
    split
    · simp
    · simp [updF_ne _ _ _ _ h1]

/-- Frame property of a whole operation sequence. -/
theorem runOps_frame (env : TypeEnv) (a : Nat) :
    ∀ (ops : List BOp) (w : World) (b : BuilderB),
      a ≠ b.regAddr → a ≠ b.secAddr →
      (runOps env ops w b).1.regs a = w.regs a ∧
      (runOps env ops w b).1.secs a = w.secs a := by
  intro ops
  induction ops with
  | nil => intro w b _ _; exact ⟨rfl, rfl⟩
  | cons op ops ih =>
    intro w b h1 h2
    obtain ⟨ha1, ha2⟩ := stepB_addrs env w b op
    obtain ⟨hf1, hf2⟩ := stepB_frame env w b op a h1 h2
    have := ih (stepB env w b op).1 (stepB env w b op).2
      (by rw [ha1]; exact h1) (by rw [ha2]; exact h2)
    simpa [runOps, hf1, hf2] using this

/-- **C8**: For any two builders returned by two separate calls to `New`,
every sequence of builder operations on either one (registering operations,
adding security requirements, adding bearer schemes, resolving bodies) leaves
the other's registry table cell and security-scheme map cell unchanged: `New`
allocates a fresh registry and fresh maps at fresh addresses on every call,
never a shared singleton. -/
theorem new_builders_independent (env : TypeEnv) (w0 : World) (t1 v1 t2 v2 : String)
    (ops : List BOp) :
    ((runOps env ops (newB (newB w0 t1 v1).2 t2 v2).2 (newB w0 t1 v1).1).1.regs
        (newB (newB w0 t1 v1).2 t2 v2).1.regAddr =
      (newB (newB w0 t1 v1).2 t2 v2).2.regs (newB (newB w0 t1 v1).2 t2 v2).1.regAddr ∧
     (runOps env ops (newB (newB w0 t1 v1).2 t2 v2).2 (newB w0 t1 v1).1).1.secs
        (newB (newB w0 t1 v1).2 t2 v2).1.secAddr =
      (newB (newB w0 t1 v1).2 t2 v2).2.secs (newB (newB w0 t1 v1).2 t2 v2).1.secAddr) ∧
    ((runOps env ops (newB (newB w0 t1 v1).2 t2 v2).2 (newB (newB w0 t1 v1).2 t2 v2).1).1.regs
        (newB w0 t1 v1).1.regAddr =
      (newB (newB w0 t1 v1).2 t2 v2).2.regs (newB w0 t1 v1).1.regAddr ∧
     (runOps env ops (newB (newB w0 t1 v1).2 t2 v2).2 (newB (newB w0 t1 v1).2 t2 v2).1).1.secs
        (newB w0 t1 v1).1.secAddr =
      (newB (newB w0 t1 v1).2 t2 v2).2.secs (newB w0 t1 v1).1.secAddr) := by
  constructor
  · constructor
    · exact (runOps_frame env (w0.next + 2) ops _ (newB w0 t1 v1).1
        (by simp [newB]; try omega) (by simp [newB]; try omega)).1
    · exact (runOps_frame env (w0.next + 3) ops _ (newB w0 t1 v1).1
        (by simp [newB]; try omega) (by simp [newB]; try omega)).2
  · constructor
    · exact (runOps_frame env w0.next ops _ (newB (newB w0 t1 v1).2 t2 v2).1
        (by simp [newB]; try omega) (by simp [newB]; try omega)).1
    · exact (runOps_frame env (w0.next + 1) ops _ (newB (newB w0 t1 v1).2 t2 v2).1
        (by simp [newB]; try omega) (by simp [newB]; try omega)).2

/-! ## C10: every reference token carries the `#/components/schemas/` path -/

theorem propsNS_append (ns : String) (a b : List (String × Schema)) :
    propsNS ns (a ++ b) ↔ (propsNS ns a ∧ propsNS ns b) := by
  induction a with
  | nil => simp [propsNS]
  | cons p ps ih => simp [propsNS, ih, and_assoc]

theorem tableNS_insertA (ns : String) (tb : Table) (k : String) (e : RegEntry)
    (htb : tableNS ns tb) (he : ∀ nd, e.node = some nd → schemaNS ns nd) :
    tableNS ns (insertA tb k e) := by
  intro p hp nd hnd
  rcases mem_insertA tb k e p hp with h | h
  · rw [h] at hnd
    exact he nd hnd
  · exact htb p h nd hnd

theorem foldl_fieldStep_ns (ns : String) (rT : Table → TypeExpr → Option (Schema × Table))
    (hT : ∀ tb t r, rT tb t = some r → tableNS ns tb → schemaNS ns r.1 ∧ tableNS ns r.2) :
    ∀ (fs : List FieldDecl) (props : List (String × Schema)) (req : List String) (tb : Table)
      (r : List (String × Schema) × List String × Table),
      fs.foldl (fieldStep rT) (some (props, req, tb)) = some r →
      propsNS ns props → tableNS ns tb →
      propsNS ns r.1 ∧ tableNS ns r.2.2 := by
  intro fs
  induction fs with
  | nil =>
    intro props req tb r h hp ht
    simp only [List.foldl_nil, Option.some.injEq] at h
    subst h
    exact ⟨hp, ht⟩
  | cons fd fs ih =>
    intro props req tb r h hp ht
    simp only [List.foldl_cons] at h
    cases hr : rT tb fd.ftype with
    | none =>
      rw [show fieldStep rT (some (props, req, tb)) fd = none by simp [fieldStep, hr]] at h
      rw [foldl_fieldStep_none] at h
      exact absurd h (by simp)
    | some p =>
      rw [show fieldStep rT (some (props, req, tb)) fd =
            some (props ++ [(fd.fname, p.1)],
                  (if isOpt fd.ftype then req else req ++ [fd.fname]), p.2) by
        simp [fieldStep, hr]] at h
      obtain ⟨hs, ht'⟩ := hT tb fd.ftype p hr ht
      exact ih _ _ _ _ h
        ((propsNS_append ns props [(fd.fname, p.1)]).2 ⟨hp, hs, trivial⟩) ht'

/-- Every schema produced and every node stored by a resolution against a
table whose tokens are namespaced is itself namespaced: the only tokens the
algorithm ever constructs are `mkTok ns name = ns ++ name`. -/
theorem resolveT_ns (env : TypeEnv) (ns : String) :
    ∀ (fuel : Nat) (tb : Table) (t : TypeExpr) (r : Schema × Table),
      resolveT env ns fuel tb t = some r → tableNS ns tb →
      schemaNS ns r.1 ∧ tableNS ns r.2 := by
  intro fuel
  induction fuel with
  | zero => intro tb t r h; exact absurd h (by simp [resolveT])
  | succ fuel ih =>
    intro tb t r h ht
    cases t with
    | prim k =>
      simp only [resolveT, Option.some.injEq] at h
      subst h
      exact ⟨trivial, ht⟩
    | ptr t => exact ih tb t r h ht
    | slice t =>
      simp only [resolveT] at h
      cases hr : resolveT env ns fuel tb t with
      | none => rw [hr] at h; exact absurd h (by simp)
      | some p =>
        rw [hr] at h
        simp only [Option.some.injEq] at h
        subst h
        obtain ⟨hs, ht'⟩ := ih tb t p hr ht
        exact ⟨hs, ht'⟩
    | smap t =>
      simp only [resolveT] at h
      cases hr : resolveT env ns fuel tb t with
      | none => rw [hr] at h; exact absurd h (by simp)
      | some p =>
        rw [hr] at h
        simp only [Option.some.injEq] at h
        subst h
        obtain ⟨hs, ht'⟩ := ih tb t p hr ht
        exact ⟨hs, ht'⟩
    | named m =>
      simp only [resolveT] at h
      split at h
      · rename_i em hm
        simp only [Option.some.injEq] at h
        subst h
        exact ⟨⟨em.rname, rfl⟩, ht⟩
      · rename_i hm
        split at h
        · exact absurd h (by simp)
        · rename_i fields hev
          split at h
          · exact absurd h (by simp)
          · rename_i props req tb2 hf
            simp only [Option.some.injEq] at h
            have ht1 : tableNS ns (insertA tb m ⟨m, true, none⟩) :=
              tableNS_insertA ns tb m _ ht (by intro nd hnd; exact absurd hnd (by simp))
            obtain ⟨hp2, ht2⟩ := foldl_fieldStep_ns ns (resolveT env ns fuel) ih fields
              [] [] _ (props, req, tb2) hf trivial ht1
            subst h
            refine ⟨⟨m, rfl⟩, ?_⟩
            exact tableNS_insertA ns tb2 m _ ht2
              (by intro nd hnd; simp only [Option.some.injEq] at hnd; rw [← hnd]; exact hp2)

/-- One builder step preserves the session's namespace invariant: the
registry cell keeps its path namespace, its table stays namespaced, and every
schema handed out to the document stays namespaced. -/
theorem stepB_ns (env : TypeEnv) (P : String) (w : World) (b : BuilderB) (op : BOp)
    (hp : (w.regs b.regAddr).pathNs = P)
    (ht : tableNS P (w.regs b.regAddr).table)
    (hb : bodiesNS P b.bodies) :
    ((stepB env w b op).1.regs (stepB env w b op).2.regAddr).pathNs = P ∧
    tableNS P ((stepB env w b op).1.regs (stepB env w b op).2.regAddr).table ∧
    bodiesNS P (stepB env w b op).2.bodies := by
  cases op with
  | register method path =>
    simp only [stepB]
    split <;> exact ⟨hp, ht, hb⟩
  | security scheme params => exact ⟨hp, ht, hb⟩
  | bearer => exact ⟨hp, ht, hb⟩
  | resolveBody fuel t =>
    simp only [stepB]
    split
    · exact ⟨hp, ht, hb⟩
    · rename_i s tb' hr
      subst hp
      obtain ⟨hs, ht'⟩ := resolveT_ns env (w.regs b.regAddr).pathNs fuel
        (w.regs b.regAddr).table t (s, tb') hr ht
      refine ⟨?_, ?_, ?_⟩
      · simp [updF_self]
      · simpa [updF_self] using ht'
      · intro x hx
        simp only [List.mem_append, List.mem_singleton] at hx
        rcases hx with hx | hx
        · exact hb x hx
        · rw [hx]; exact hs

/-- A whole operation sequence preserves the namespace invariant. -/
theorem runOps_ns (env : TypeEnv) (P : String) :
    ∀ (ops : List BOp) (w : World) (b : BuilderB),
      (w.regs b.regAddr).pathNs = P → tableNS P (w.regs b.regAddr).table →
      bodiesNS P b.bodies →
      ((runOps env ops w b).1.regs (runOps env ops w b).2.regAddr).pathNs = P ∧
      tableNS P ((runOps env ops w b).1.regs (runOps env ops w b).2.regAddr).table ∧
      bodiesNS P (runOps env ops w b).2.bodies := by
  intro ops
  induction ops with
  | nil => intro w b hp ht hb; exact ⟨hp, ht, hb⟩
  | cons op ops ih =>
    intro w b hp ht hb
    obtain ⟨hp', ht', hb'⟩ := stepB_ns env P w b op hp ht hb
    simpa [runOps] using ih (stepB env w b op).1 (stepB env w b op).2 hp' ht' hb'

/-- **C10**: The registry constructed by `New` is configured with the
reference path `"#/components/schemas/"`, and consequently every named
(non-inline) schema reference token produced during a build — in the registry
table as well as in every schema handed to a body declaration — begins with
that components/schemas namespace string (`schemaNS`: each `ref` token is
`"#/components/schemas/" ++ name`). -/
theorem new_registry_namespaced (env : TypeEnv) (w0 : World) (t v : String)
    (ops : List BOp) :
    ((newB w0 t v).2.regs (newB w0 t v).1.regAddr).pathNs = "#/components/schemas/" ∧
    tableNS "#/components/schemas/"
      ((runOps env ops (newB w0 t v).2 (newB w0 t v).1).1.regs
        (runOps env ops (newB w0 t v).2 (newB w0 t v).1).2.regAddr).table ∧
    bodiesNS "#/components/schemas/"
      (runOps env ops (newB w0 t v).2 (newB w0 t v).1).2.bodies := by
  have hp : ((newB w0 t v).2.regs (newB w0 t v).1.regAddr).pathNs =
      "#/components/schemas/" := by
    simp [newB, updF_self]
  have ht : tableNS "#/components/schemas/"
      ((newB w0 t v).2.regs (newB w0 t v).1.regAddr).table := by
    simp only [newB, updF_self]
    intro p hp'
    exact absurd hp' (by simp)
  have hb : bodiesNS "#/components/schemas/" (newB w0 t v).1.bodies := by
    intro s hs
    exact absurd hs (by simp [newB])
  obtain ⟨h1, h2, h3⟩ := runOps_ns env "#/components/schemas/" ops
    (newB w0 t v).2 (newB w0 t v).1 hp ht hb
  exact ⟨hp, h2, h3⟩

end OpenAPIModel
